import Mathlib

/-!
Verification of the protocol core of the `gan-web-bluetooth` library.

The definitions below are shallow embeddings of the TypeScript sources:

* `GanProtocolMessageView.getBitWord`  (src/gan-cube-protocol.ts, class GanProtocolMessageView)
* the Gen2 driver's MOVE branch        (src/gan-cube-protocol.ts, GanGen2ProtocolDriver)
* the Gen3 move reconciler             (src/gan-cube-protocol.ts, GanGen3ProtocolDriver)
* the Gen4 hardware-info aggregation   (src/gan-cube-protocol.ts, GanGen4ProtocolDriver)
* the timer frame decoder              (src/gan-smart-timer.ts)
* the AES envelope                     (GanGen2CubeEncrypter in gan-cube-encrypter.ts,
                                        whose source is embedded in src/rollup.config.js)
* the facelet codec and the linear-fit input mutation
                                       (toKociembaFacelets and cubeTimestampLinearFit in
                                        utils.ts, embedded in src/rollup.config.js)

The AES-128 block cipher itself comes from the external aes-js library and is
abstracted as a block map `encB` with inverse `decB`; everything else is
translated directly from the repository sources.

Byte buffers are `List Nat` with each element a byte value `< 256` (Uint8Array
contents).  JavaScript numbers that may hold the sentinel `-1` are `Int`.
-/

/- ===================== String literals used by the model ===================== -/

def errUnsupportedBitLength : String := "Unsupproted bit word length"

def errOutOfRange : String := "Offset is outside the bounds of the DataView"

def errShortMessage : String := "Data must be at least 16 bytes long"

def faceLetterString : String := "URFDLB"

def dirLetterString : String := " '"

def gan12uimName : String := "GAN12uiM"

def dateSep : String := "-"

def verSep : String := "."

/- ===================== GanProtocolMessageView (bit view) ===================== -/

/-- The bit string of a message: each byte contributes its 8 bits, most
significant first.  Mirrors `(byte + 0x100).toString(2).slice(1)` joined over
the message. -/
def messageBits (msg : List Nat) : List Bool :=
  msg.flatMap (fun b => (List.range 8).map (fun i => b.testBit (7 - i)))

/-- `parseInt(bits, 2)` on a slice of the bit string.  JavaScript returns `NaN`
for the empty string, modelled as `none`. -/
def parseBits (bs : List Bool) : Option Nat :=
  if bs.isEmpty then none
  else some (bs.foldl (fun n b => 2 * n + (if b then 1 else 0)) 0)

/-- Big-endian byte assembly: `DataView.getUint16/getUint32` with
`littleEndian = false` over the scratch byte buffer. -/
def bytesToNatBE (bytes : List Nat) : Nat :=
  bytes.foldl (fun acc b => 256 * acc + b) 0

/-- `GanProtocolMessageView.getBitWord(startBit, bitLength, littleEndian)`.
For `bitLength ≤ 8` a single `parseInt` of the bit slice (`none` = `NaN` when
the slice is empty).  For 16/32 bits, each byte of the scratch `Uint8Array` is
parsed separately; an empty slice parses to `NaN`, which a `Uint8Array` store
coerces to `0`.  Any other length throws. -/
def getBitWord (msg : List Nat) (startBit bitLength : Nat)
    (littleEndian : Bool := false) : Except String (Option Nat) :=
  let bits := messageBits msg
  if bitLength ≤ 8 then
    Except.ok (parseBits ((bits.drop startBit).take bitLength))
  else if bitLength = 16 ∨ bitLength = 32 then
    let buf := (List.range (bitLength / 8)).map
      (fun i => (parseBits ((bits.drop (8 * i + startBit)).take 8)).getD 0)
    Except.ok (some (bytesToNatBE (if littleEndian then buf.reverse else buf)))
  else
    Except.error errUnsupportedBitLength

/-- Total convenience wrapper used by the driver embeddings.  For the call
sites in the drivers the bit length is always one of `{1..8, 16, 32}` and the
theorems below restrict messages to lengths making every read in range, so the
`0` fallbacks are never reached there. -/
def bitWord (msg : List Nat) (startBit bitLength : Nat)
    (littleEndian : Bool := false) : Nat :=
  match getBitWord msg startBit bitLength littleEndian with
  | Except.ok (some n) => n
  | Except.ok none => 0
  | Except.error _ => 0

/- ===================== Timer frame decoder (gan-smart-timer.ts) ===================== -/

/-- `GanTimerState.STOPPED` -/
def timerStateStopped : Nat := 4

structure GanTimerTime where
  minutes : Nat
  seconds : Nat
  milliseconds : Nat
  asTimestamp : Nat
deriving DecidableEq, Repr

/-- `makeTime(min, sec, msec)` -/
def makeTime (min sec msec : Nat) : GanTimerTime :=
  { minutes := min, seconds := sec, milliseconds := msec,
    asTimestamp := 60000 * min + 1000 * sec + msec }

/-- `DataView.getUint8(off)` which throws for an out-of-range offset. -/
def getUint8 (bytes : List Nat) (off : Nat) : Except String Nat :=
  match bytes.get? off with
  | some b => Except.ok b
  | none => Except.error errOutOfRange

/-- `DataView.getUint16(off, true)` (little-endian), throwing out of range. -/
def getUint16LE (bytes : List Nat) (off : Nat) : Except String Nat :=
  match bytes.get? off, bytes.get? (off + 1) with
  | some lo, some hi => Except.ok (lo + 256 * hi)
  | _, _ => Except.error errOutOfRange

/-- `makeTimeFromRaw(data, offset)` -/
def makeTimeFromRaw (bytes : List Nat) (off : Nat) : Except String GanTimerTime := do
  let min ← getUint8 bytes off
  let sec ← getUint8 bytes (off + 1)
  let msec ← getUint16LE bytes (off + 2)
  pure (makeTime min sec msec)

/-- `crc16ccit(buff)`: CRC-16/CCITT-FALSE as coded, with the intermediate value
kept modulo 2^32 as JavaScript 32-bit bitwise semantics do. -/
def crc16ccit (bytes : List Nat) : Nat :=
  (bytes.foldl
    (fun crc b =>
      (List.range 8).foldl
        (fun c _ => if c.testBit 15 then ((c <<< 1) ^^^ 0x1021) % 4294967296
                    else (c <<< 1) % 4294967296)
        ((crc ^^^ (b <<< 8)) % 4294967296))
    0xFFFF) &&& 0xFFFF

/-- `validateEventData(data)`: non-empty, magic byte `0xFE`, and the
little-endian 16-bit word in the last two bytes equals the CRC of
`buffer.slice(2, byteLength - 2)`.  Any `DataView` range error is caught and
yields `false`. -/
def validateEventData (bytes : List Nat) : Bool :=
  if bytes.length = 0 then false
  else if bytes.getD 0 0 ≠ 0xFE then false
  else if bytes.length < 2 then false
  else
    let eventCRC := bytes.getD (bytes.length - 2) 0 + 256 * bytes.getD (bytes.length - 1) 0
    let calculatedCRC := crc16ccit ((bytes.drop 2).take (bytes.length - 4))
    eventCRC = calculatedCRC

structure GanTimerEvent where
  state : Nat
  recordedTime : Option GanTimerTime
deriving DecidableEq, Repr

/-- `buildTimerEvent(data)` -/
def buildTimerEvent (bytes : List Nat) : Except String GanTimerEvent := do
  let st ← getUint8 bytes 3
  if st = timerStateStopped then
    let t ← makeTimeFromRaw bytes 4
    pure { state := st, recordedTime := some t }
  else
    pure { state := st, recordedTime := none }

/- ===================== Move notation helper ===================== -/

def emptyString : String := ""

/-- `"…".charAt(i)`: one-character string, or the empty string out of range. -/
def charAt (s : String) (i : Nat) : String :=
  match s.data.get? i with
  | some c => String.singleton c
  | none => emptyString

/-- `"URFDLB".charAt(face) + " '".charAt(direction)` followed by `.trim()`. -/
def moveNotation (face direction : Nat) : String :=
  ((charAt faceLetterString face) ++ (charAt dirLetterString direction)).trim

/- ===================== Gen2 driver, MOVE branch ===================== -/

structure Gen2State where
  lastSerial : Int
  lastMoveTimestamp : Int
  cubeTimestamp : Int
deriving DecidableEq, Repr

structure Gen2MoveEvent where
  serial : Nat
  localTimestamp : Option Int
  cubeTimestamp : Int
  face : Nat
  direction : Nat
  move : String
deriving DecidableEq, Repr

/-- One iteration of the Gen2 MOVE loop body (`for (let i = diff - 1; i >= 0; i--)`). -/
def gen2MoveStep (msg : List Nat) (timestamp : Int) (serial : Nat)
    (acc : Gen2State × List Gen2MoveEvent) (i : Nat) : Gen2State × List Gen2MoveEvent :=
  let s := acc.1
  let face := bitWord msg (12 + 5 * i) 4
  let direction := bitWord msg (16 + 5 * i) 1
  let elapsedRaw : Int := bitWord msg (47 + 16 * i) 16
  let elapsed : Int := if elapsedRaw = 0 then timestamp - s.lastMoveTimestamp else elapsedRaw
  let cubeTs := s.cubeTimestamp + elapsed
  ({ s with cubeTimestamp := cubeTs },
   acc.2 ++ [{ serial := (((serial : Int) - (i : Int)) % 256).toNat,
               localTimestamp := if i = 0 then some timestamp else none,
               cubeTimestamp := cubeTs,
               face := face,
               direction := direction,
               move := moveNotation face direction }])

/-- The `eventType == 0x02` (MOVE) branch of `GanGen2ProtocolDriver.handleStateEvent`.
Move events are accepted only after the first facelets event (`lastSerial != -1`);
`lastSerial` is overwritten with the frame serial on every accepted move frame,
even when `diff == 0`. -/
def gen2MoveBranch (st : Gen2State) (msg : List Nat) (timestamp : Int) :
    Gen2State × List Gen2MoveEvent :=
  if st.lastSerial = -1 then (st, [])
  else
    let serial := bitWord msg 4 8
    let diff := min ((((serial : Int) - st.lastSerial) % 256).toNat) 7
    let st1 := { st with lastSerial := (serial : Int) }
    if 0 < diff then
      let r := ((List.range diff).reverse).foldl (gen2MoveStep msg timestamp serial) (st1, [])
      ({ r.1 with lastMoveTimestamp := timestamp }, r.2)
    else (st1, [])

/- ===================== Gen3 driver: move reconciler ===================== -/

structure GanCubeMoveEvent where
  serial : Nat
  face : Nat
  direction : Nat
  move : String
  localTimestamp : Option Int
  cubeTimestamp : Option Int
deriving DecidableEq, Repr

/-- Mutable state of `GanGen3ProtocolDriver` relevant to move handling:
`serial` is the most recent serial seen on any carrier, `lastSerial` the serial
of the last emitted move (`-1` before the first facelets event), `moveBuffer`
the FIFO of pending moves.  (`lastLocalTimestamp` only debounces the facelets
path and plays no role in the reconciler itself.) -/
structure Gen3State where
  serial : Int
  lastSerial : Int
  moveBuffer : List GanCubeMoveEvent
deriving DecidableEq, Repr

/-- `isSerialInRange(start, end, serial, closedStart, closedEnd)`; `& 0xFF` on
JavaScript numbers is `Int % 256` for the value ranges involved. -/
def isSerialInRange (start e serial : Int)
    (closedStart : Bool := false) (closedEnd : Bool := false) : Bool :=
  ((e - start) % 256 ≥ (serial - start) % 256)
    && (closedStart || (start - serial) % 256 > 0)
    && (closedEnd || (e - serial) % 256 > 0)

/-- The serial/count adjustment performed by `requestMoveHistory` before the
command message is sent. -/
def requestMoveHistoryArgs (serial count : Int) : Int × Int :=
  let serial := if serial % 2 = 0 then (serial - 1) % 256 else serial
  let count := if count % 2 = 1 then count + 1 else count
  (serial, min count (serial + 1))

/-- The `while` loop of `evictMoveBuffer`, structurally recursive on the
buffer.  Returns the evicted events, the final `lastSerial`, the raw
`(bufferHead.serial, diff)` arguments of the `requestMoveHistory` call when a
gap stopped eviction, and the remaining buffer. -/
def evictLoop (lastSerial : Int) :
    List GanCubeMoveEvent →
      List GanCubeMoveEvent × Int × Option (Nat × Int) × List GanCubeMoveEvent
  | [] => ([], lastSerial, none, [])
  | m :: rest =>
    let diff := if lastSerial = -1 then 1 else ((m.serial : Int) - lastSerial) % 256
    if diff > 1 then
      ([], lastSerial, some (m.serial, diff), m :: rest)
    else
      let r := evictLoop (m.serial : Int) rest
      (m :: r.1, r.2.1, r.2.2.1, r.2.2.2)

/-- `evictMoveBuffer(conn?)`.  Returns the evicted (emitted) events, the new
driver state, the raw arguments of the history request sent when a connection
was supplied and a gap was found, and whether `conn.disconnect()` was invoked
(buffer overflow beyond 16 pending moves). -/
def evictMoveBuffer (st : Gen3State) (hasConn : Bool) :
    List GanCubeMoveEvent × Gen3State × Option (Nat × Int) × Bool :=
  let r := evictLoop st.lastSerial st.moveBuffer
  (r.1,
   { st with lastSerial := r.2.1, moveBuffer := r.2.2.2 },
   if hasConn then r.2.2.1 else none,
   hasConn && r.2.2.2.length > 16)

/-- `injectMissedMoveToBuffer(move)` (the `move.type == "MOVE"` payload case). -/
def injectMissedMoveToBuffer (st : Gen3State) (m : GanCubeMoveEvent) : Gen3State :=
  match st.moveBuffer with
  | [] =>
    if isSerialInRange st.lastSerial st.serial (m.serial : Int) false true then
      { st with moveBuffer := [m] }
    else st
  | head :: _ =>
    if st.moveBuffer.any (fun e => e.serial = m.serial) then st
    else if ¬ isSerialInRange st.lastSerial (head.serial : Int) (m.serial : Int) then st
    else if (m.serial : Int) = ((head.serial : Int) - 1) % 256 then
      { st with moveBuffer := m :: st.moveBuffer }
    else st

/-- An arrival at the reconciler: either a real-time move frame (already
decoded to its move, with a valid face) or one move of a history-response
frame. -/
inductive Gen3Arrival
  | realtime (m : GanCubeMoveEvent)
  | history (m : GanCubeMoveEvent)
deriving DecidableEq, Repr

def Gen3Arrival.serial : Gen3Arrival → Nat
  | .realtime m => m.serial
  | .history m => m.serial

/-- Processing of one arrival, as `handleStateEvent` does: a real-time move is
accepted only when `lastSerial != -1`, records the current serial, is pushed on
the buffer tail and the buffer is evicted with the connection supplied; a
history move is injected and the buffer is evicted without a connection. -/
def gen3Step (st : Gen3State) : Gen3Arrival → Gen3State × List GanCubeMoveEvent
  | .realtime m =>
    if st.lastSerial = -1 then (st, [])
    else
      let st1 := { st with serial := (m.serial : Int), moveBuffer := st.moveBuffer ++ [m] }
      let r := evictMoveBuffer st1 true
      (r.2.1, r.1)
  | .history m =>
    let st1 := injectMissedMoveToBuffer st m
    let r := evictMoveBuffer st1 false
    (r.2.1, r.1)

/-- A whole run of arrivals, concatenating the emitted events. -/
def gen3Run (st : Gen3State) : List Gen3Arrival → Gen3State × List GanCubeMoveEvent
  | [] => (st, [])
  | a :: rest =>
    let r1 := gen3Step st a
    let r2 := gen3Run r1.1 rest
    (r2.1, r1.2 ++ r2.2)

/-- The expected serial sequence of `cnt` consecutively emitted moves after a
last-emitted serial `lastSerial`. -/
def consecSerials (lastSerial : Int) (cnt : Nat) : List Nat :=
  (List.range cnt).map (fun (i : Nat) => ((lastSerial + 1 + (i : Int)) % 256).toNat)

/- ===================== Gen4 driver: hardware-info aggregation ===================== -/

/-- `padStart(width, '0')` applied to a decimal rendering. -/
def padZero (n width : Nat) : String :=
  let s := toString n
  { data := List.replicate (width - s.length) '0' ++ s.data }

/-- Partial hardware info gathered from sub-frames, keyed by the four tags
`0xFA` (product date), `0xFC` (name), `0xFD` (software version), `0xFE`
(hardware version); `none` = key absent from `this.hwInfo`. -/
structure Gen4HwInfo where
  fa : Option String
  fc : Option String
  fd : Option String
  fe : Option String
deriving DecidableEq, Repr

def Gen4HwInfo.empty : Gen4HwInfo := ⟨none, none, none, none⟩

/-- `Object.keys(this.hwInfo).length` -/
def Gen4HwInfo.keyCount (hw : Gen4HwInfo) : Nat :=
  (if hw.fa.isSome then 1 else 0) + (if hw.fc.isSome then 1 else 0)
    + (if hw.fd.isSome then 1 else 0) + (if hw.fe.isSome then 1 else 0)

/-- The `0xFA` sub-frame: `YYYY-MM-DD` product date. -/
def gen4ProductDate (msg : List Nat) : String :=
  let year := bitWord msg 24 16 true
  let month := bitWord msg 40 8
  let day := bitWord msg 48 8
  padZero year 4 ++ dateSep ++ padZero month 2 ++ dateSep ++ padZero day 2

/-- The `0xFC` sub-frame: `dataLength - 1` ASCII bytes of the hardware name. -/
def gen4HardwareName (msg : List Nat) : String :=
  let dataLength := bitWord msg 8 8
  { data := (List.range (dataLength - 1)).map (fun i => Char.ofNat (bitWord msg (i * 8 + 24) 8)) }

/-- The `0xFD` / `0xFE` sub-frames: `major.minor` from two nibbles at bit 24. -/
def gen4VersionString (msg : List Nat) : String :=
  toString (bitWord msg 24 4) ++ verSep ++ toString (bitWord msg 28 4)

structure Gen4HardwareEvent where
  hardwareName : Option String
  hardwareVersion : Option String
  softwareVersion : Option String
  productDate : Option String
  gyroSupported : Bool
deriving DecidableEq, Repr

/-- The `eventType >= 0xFA && eventType <= 0xFE` (HARDWARE) branch of
`GanGen4ProtocolDriver.handleStateEvent`: store the sub-frame's decoded value
under its tag (`0xFB` has no case and stores nothing), then emit a single
HARDWARE event exactly when all four tags are populated.
`gyroSupported` is `['GAN12uiM'].indexOf(hwInfo[0xFC]) != -1`. -/
def gen4HandleHardware (hw : Gen4HwInfo) (msg : List Nat) :
    Gen4HwInfo × List Gen4HardwareEvent :=
  let eventType := bitWord msg 0 8
  let hw :=
    if eventType = 0xFA then { hw with fa := some (gen4ProductDate msg) }
    else if eventType = 0xFC then { hw with fc := some (gen4HardwareName msg) }
    else if eventType = 0xFD then { hw with fd := some (gen4VersionString msg) }
    else if eventType = 0xFE then { hw with fe := some (gen4VersionString msg) }
    else hw
  if hw.keyCount = 4 then
    (hw, [{ hardwareName := hw.fc, hardwareVersion := hw.fe, softwareVersion := hw.fd,
            productDate := hw.fa, gyroSupported := hw.fc = some gan12uimName }])
  else (hw, [])

/-- Feeding a sequence of hardware sub-frames, concatenating emitted events. -/
def gen4HwRun (hw : Gen4HwInfo) : List (List Nat) → Gen4HwInfo × List Gen4HardwareEvent
  | [] => (hw, [])
  | m :: rest =>
    let r1 := gen4HandleHardware hw m
    let r2 := gen4HwRun r1.1 rest
    (r2.1, r1.2 ++ r2.2)

/- ===================== AES envelope (gan-cube-encrypter.ts, whose source is embedded in src/rollup.config.js) ===================== -/

/-- The salt-application loop of the `GanGen2CubeEncrypter` constructor
(gan-cube-encrypter.ts, embedded in src/rollup.config.js): after copying the
base array, `this._key[i] = (key[i] + salt[i]) % 0xFF` for `i < 6` — modulus
255, not 256 — leaving `i ≥ 6` unchanged; the same loop salts `iv`. -/
def saltBytes (base salt : List Nat) : List Nat :=
  (List.range base.length).map
    (fun i => if i < 6 then (base.getD i 0 + salt.getD i 0) % 255 else base.getD i 0)

/-- The effective `(this._key, this._iv)` pair stored by a successfully
constructed `GanGen2CubeEncrypter(key, iv, salt)` (the constructor first
validates key/iv length 16 and salt length 6, throwing otherwise; the
theorem's hypotheses carry those validated lengths). -/
def ganGen2EncrypterKeyIv (key iv salt : List Nat) : List Nat × List Nat :=
  (saltBytes key salt, saltBytes iv salt)

/-- Bytewise XOR (CBC chaining step). -/
def xorBytes (a b : List Nat) : List Nat :=
  List.zipWith (fun x y => x ^^^ y) a b

/-- The 16-byte chunk of `buf` at `off`. -/
def sliceAt (buf : List Nat) (off : Nat) : List Nat :=
  (buf.drop off).take 16

/-- Replace the 16-byte chunk of `buf` at `off` by `chunk`. -/
def setSlice (buf : List Nat) (off : Nat) (chunk : List Nat) : List Nat :=
  buf.take off ++ chunk ++ buf.drop (off + chunk.length)

/-- `GanGen2CubeEncrypter.encryptChunk(buffer, offset)`: a fresh
`ModeOfOperation.cbc(this._key, this._iv)` cipher encrypts the 16-byte
subarray at `offset` and the result is written back in place.  On a single
16-byte block, CBC is `AES_enc(block XOR iv)`; the AES-128 core comes from the
external aes-js library and is abstracted here as the block map `encB`
(length-preserving, with inverse `decB`, per the theorem's hypotheses). -/
def encryptChunk (encB : List Nat → List Nat) (iv : List Nat)
    (buf : List Nat) (off : Nat) : List Nat :=
  setSlice buf off (encB (xorBytes (sliceAt buf off) iv))

/-- `GanGen2CubeEncrypter.decryptChunk(buffer, offset)`: single-block CBC
decryption in place, `AES_dec(block) XOR iv`, with the aes-js AES-128 inverse
core abstracted as `decB`. -/
def decryptChunk (decB : List Nat → List Nat) (iv : List Nat)
    (buf : List Nat) (off : Nat) : List Nat :=
  setSlice buf off (xorBytes (decB (sliceAt buf off)) iv)

/-- `GanGen2CubeEncrypter.encrypt(data)` (gan-cube-encrypter.ts, embedded in
src/rollup.config.js): throw when the input is shorter than 16 bytes,
otherwise copy it, encrypt the 16-byte chunk at offset 0, and when the
message is longer also the (possibly overlapping) chunk at `len - 16`. -/
def ganEncrypt (encB : List Nat → List Nat) (iv msg : List Nat) :
    Except String (List Nat) :=
  if msg.length < 16 then Except.error errShortMessage
  else
    Except.ok (if msg.length > 16 then
      encryptChunk encB iv (encryptChunk encB iv msg 0) (msg.length - 16)
    else encryptChunk encB iv msg 0)

/-- `GanGen2CubeEncrypter.decrypt(data)`: reverse order — decrypt the tail
chunk at `len - 16` first (when `len > 16`), then the head chunk at 0. -/
def ganDecrypt (decB : List Nat → List Nat) (iv msg : List Nat) :
    Except String (List Nat) :=
  if msg.length < 16 then Except.error errShortMessage
  else
    Except.ok (decryptChunk decB iv
      (if msg.length > 16 then decryptChunk decB iv msg (msg.length - 16) else msg) 0)

/- ===================== Facelet codec (toKociembaFacelets in utils.ts, whose source is embedded in src/rollup.config.js) ===================== -/

/-- `CORNER_FACELET_MAP` (utils.ts, embedded in src/rollup.config.js). -/
def cornerFaceletMap : List (List Nat) :=
  [[8, 9, 20], [6, 18, 38], [0, 36, 47], [2, 45, 11],
   [29, 26, 15], [27, 44, 24], [33, 53, 42], [35, 17, 51]]

/-- `EDGE_FACELET_MAP` (utils.ts, embedded in src/rollup.config.js). -/
def edgeFaceletMap : List (List Nat) :=
  [[5, 10], [7, 19], [3, 37], [1, 46], [32, 16], [28, 25],
   [30, 43], [34, 52], [23, 12], [21, 41], [50, 39], [48, 14]]

def faceLetters : List Char := ['U', 'R', 'F', 'D', 'L', 'B']

/-- The 54 positions initialized with the center color of their face. -/
def faceletInit : List Char :=
  (List.range 54).map (fun i => faceLetters.getD (i / 9) 'U')

/-- The corner loop of `toKociembaFacelets`: for each corner `i ∈ 0..7` and
position `p ∈ 0..2`, `facelets[CORNER_FACELET_MAP[i][(p + co[i]) % 3]] =
faces[~~(CORNER_FACELET_MAP[cp[i]][p] / 9)]`, listed in loop order. -/
def cornerWrites (cp co : List Nat) : List (Nat × Char) :=
  (List.range 8).flatMap (fun i =>
    (List.range 3).map (fun p =>
      ((cornerFaceletMap.getD i []).getD ((p + co.getD i 0) % 3) 0,
       faceLetters.getD ((cornerFaceletMap.getD (cp.getD i 0) []).getD p 0 / 9) 'U')))

/-- The edge loop of `toKociembaFacelets`: for each edge `i ∈ 0..11` and
position `p ∈ 0..1`, `facelets[EDGE_FACELET_MAP[i][(p + eo[i]) % 2]] =
faces[~~(EDGE_FACELET_MAP[ep[i]][p] / 9)]`, listed in loop order. -/
def edgeWrites (ep eo : List Nat) : List (Nat × Char) :=
  (List.range 12).flatMap (fun i =>
    (List.range 2).map (fun p =>
      ((edgeFaceletMap.getD i []).getD ((p + eo.getD i 0) % 2) 0,
       faceLetters.getD ((edgeFaceletMap.getD (ep.getD i 0) []).getD p 0 / 9) 'U')))

/-- Sequential in-place writes `facelets[idx] = letter`. -/
def applyWrites (l : List Char) (ws : List (Nat × Char)) : List Char :=
  ws.foldl (fun l w => l.set w.1 w.2) l

/-- `toKociembaFacelets(cp, co, ep, eo)` (utils.ts, embedded in
src/rollup.config.js): initialize `facelets[i] = faces[~~(i / 9)]` for the 54
positions, run the corner loop, then the edge loop, and join the characters
into a string. -/
def toKociembaFacelets (cp co ep eo : List Nat) : String :=
  { data := applyWrites (applyWrites faceletInit (cornerWrites cp co)) (edgeWrites ep eo) }

/- ===================== cubeTimestampLinearFit: caller-visible input mutation (utils.ts, embedded in src/rollup.config.js) ===================== -/

/-- One write decision of the first gap-filling pass of `cubeTimestampLinearFit`
(tail-to-head, `for (let i = cubeMoves.length - 1; i > 0; i--)`): when the move
`m` at position `i - 1` has `cubeTimestamp == null` and the already-processed
move at position `i` (the head of `rest`) has a non-null `cubeTimestamp v`,
overwrite `m.cubeTimestamp` with `v - 50`; otherwise leave `m` unchanged. -/
def fill1 (m : GanCubeMoveEvent) (rest : List GanCubeMoveEvent) : GanCubeMoveEvent :=
  match m.cubeTimestamp with
  | some _ => m
  | none =>
    match rest with
    | [] => m
    | nxt :: _ =>
      match nxt.cubeTimestamp with
      | some v => { m with cubeTimestamp := some (v - 50) }
      | none => m

/-- The first in-place pass of `cubeTimestampLinearFit` on the caller's array.
The loop runs tail-to-head writing `cubeMoves[i-1]` from the already-updated
`cubeMoves[i]`, so each position is updated from the fully processed suffix. -/
def fitPass1 : List GanCubeMoveEvent → List GanCubeMoveEvent
  | [] => []
  | m :: ms => fill1 m (fitPass1 ms) :: fitPass1 ms

/-- One write decision of the second gap-filling pass (head-to-tail, `for (let
i = 0; i < cubeMoves.length - 1; i++)`): when the already-processed previous
move has a non-null `cubeTimestamp v` and the current move `m` has
`cubeTimestamp == null`, overwrite it with `v + 50`. -/
def fill2 (prev m : GanCubeMoveEvent) : GanCubeMoveEvent :=
  match prev.cubeTimestamp, m.cubeTimestamp with
  | some v, none => { m with cubeTimestamp := some (v + 50) }
  | _, _ => m

/-- The second pass from position 1 on, threading the processed previous move. -/
def fitPass2Go (prev : GanCubeMoveEvent) : List GanCubeMoveEvent → List GanCubeMoveEvent
  | [] => []
  | m :: ms => fill2 prev m :: fitPass2Go (fill2 prev m) ms

/-- The second in-place pass of `cubeTimestampLinearFit`: the loop never writes
position 0 and updates each later position from its processed predecessor. -/
def fitPass2 : List GanCubeMoveEvent → List GanCubeMoveEvent
  | [] => []
  | m :: ms => m :: fitPass2Go m ms

/-- The caller-visible state of the `cubeMoves` argument after
`cubeTimestampLinearFit(cubeMoves)` returns (utils.ts, embedded in
src/rollup.config.js): when the list has at least two moves the two in-place
gap-filling passes write through to the caller's move objects; the subsequent
linear-regression block only reads the array and pushes freshly constructed
move objects onto the separate result array `res`, so it never writes the
argument. -/
def cubeTimestampLinearFitInputAfter (ms : List GanCubeMoveEvent) : List GanCubeMoveEvent :=
  if 2 ≤ ms.length then fitPass2 (fitPass1 ms) else ms

/-- The fields of a move that `cubeTimestampLinearFit` never writes. -/
def moveFields (m : GanCubeMoveEvent) : Nat × Nat × Nat × String × Option Int :=
  (m.serial, m.face, m.direction, m.move, m.localTimestamp)

/-- The `cubeTimestamp` field of the move at index `j`, `none` out of range. -/
def ctAt (l : List GanCubeMoveEvent) (j : Nat) : Option (Option Int) :=
  (l[j]?).map GanCubeMoveEvent.cubeTimestamp

/-- A placeholder previous move with a null `cubeTimestamp`; threading it as
the initial `prev` makes `fitPass2Go` start with no write, like the loop. -/
def dummyMove : GanCubeMoveEvent := ⟨0, 0, 0, emptyString, none, none⟩

/- ===================== Reference definitions used by theorem statements ===================== -/

/-- The naive reference value of a bit word (spec §8, BitView round-trip): the
unsigned integer formed by `len` bits starting at bit `start`, most significant
first. -/
def bitsValueSpec (msg : List Nat) (start len : Nat) : Nat :=
  ∑ i ∈ Finset.range len, if (messageBits msg).getD (start + i) false then 2 ^ (len - 1 - i) else 0

/-- All 24 orders in which four distinct sub-frames can arrive. -/
def perms4 (a b c d : List Nat) : List (List (List Nat)) :=
  [[a, b, c, d], [a, b, d, c], [a, c, b, d], [a, c, d, b], [a, d, b, c], [a, d, c, b],
   [b, a, c, d], [b, a, d, c], [b, c, a, d], [b, c, d, a], [b, d, a, c], [b, d, c, a],
   [c, a, b, d], [c, a, d, b], [c, b, a, d], [c, b, d, a], [c, d, a, b], [c, d, b, a],
   [d, a, b, c], [d, a, c, b], [d, b, a, c], [d, b, c, a], [d, c, a, b], [d, c, b, a]]

/-- The 24 corner facelet positions. -/
def allCornerPositions : List Nat := cornerFaceletMap.flatMap (fun l => l)

/-- The 24 edge facelet positions. -/
def allEdgePositions : List Nat := edgeFaceletMap.flatMap (fun l => l)

/-- The multiset of face letters on all corner stickers (4 per face). -/
def cornerLetterPool : List Char :=
  (List.range 8).flatMap (fun j =>
    (List.range 3).map (fun p => faceLetters.getD ((cornerFaceletMap.getD j []).getD p 0 / 9) 'U'))

/-- The multiset of face letters on all edge stickers (4 per face). -/
def edgeLetterPool : List Char :=
  (List.range 12).flatMap (fun j =>
    (List.range 2).map (fun p => faceLetters.getD ((edgeFaceletMap.getD j []).getD p 0 / 9) 'U'))

/- ===================== Concrete values used by witnesses ===================== -/

/-- The GAN Gen2/Gen3/Gen4 AES key (`GAN_ENCRYPTION_KEYS[0].key`). -/
def ganKey : List Nat :=
  [0x01, 0x02, 0x42, 0x28, 0x31, 0x91, 0x16, 0x07,
   0x20, 0x05, 0x18, 0x54, 0x42, 0x11, 0x12, 0x53]

/-- The GAN Gen2/Gen3/Gen4 AES iv (`GAN_ENCRYPTION_KEYS[0].iv`). -/
def ganIv : List Nat :=
  [0x11, 0x03, 0x32, 0x28, 0x21, 0x01, 0x76, 0x27,
   0x20, 0x95, 0x78, 0x14, 0x32, 0x12, 0x02, 0x43]

/-- A 6-byte salt (a MAC address in reverse byte order). -/
def macSalt : List Nat := [0x34, 0x12, 0xAB, 0x89, 0x67, 0x45]

/-- A valid STOPPED timer frame: magic `0xFE`, state 4 at byte 3, recorded time
0:12.100, and the CRC of the covered range `[0, 4, 0, 12, 100, 0]` (= 13721)
little-endian in the last two bytes. -/
def timerStoppedFrame : List Nat := [0xFE, 9, 0, 4, 0, 12, 100, 0, 153, 53]

/-- A valid RUNNING timer frame (state 3): CRC of `[0, 3]` (= 11628)
little-endian in the last two bytes. -/
def timerRunningFrame : List Nat := [0xFE, 5, 0, 3, 108, 45]

/-- A move with a null `cubeTimestamp`, used to instantiate C10. -/
def c10mA : GanCubeMoveEvent := ⟨1, 0, 0, emptyString, none, none⟩

/-- A move with `cubeTimestamp` 1000, used to instantiate C10. -/
def c10mB : GanCubeMoveEvent := ⟨2, 1, 0, emptyString, some 5, some 1000⟩

/-- A concrete move event with serial `s` used in reconciler scenarios. -/
def mkMove (s : Nat) : GanCubeMoveEvent :=
  { serial := s, face := 0, direction := 0, move := emptyString,
    localTimestamp := none, cubeTimestamp := none }

/- ===================== Theorems ===================== -/

/-- Element access of the salted key/iv arrays. -/
theorem saltBytes_getD (base salt : List Nat) (i : Nat) (h : i < base.length) :
    (saltBytes base salt).getD i 0 =
      if i < 6 then (base.getD i 0 + salt.getD i 0) % 255 else base.getD i 0 := by
  simp [saltBytes, List.getD_eq_getElem?_getD, List.getElem?_map, List.getElem?_range, h]

/-- C8: for every 16-byte key, 16-byte iv and 6-byte salt, the effective AES
key and iv of `GanGen2CubeEncrypter` satisfy `key'[i] = (key[i] + salt[i]) mod
255` and `iv'[i] = (iv[i] + salt[i]) mod 255` for `i < 6` (modulus 255, not
256), and are unchanged for `6 ≤ i < 16`. -/
theorem c8_effective_key_iv (key iv salt : List Nat)
    (hk : key.length = 16) (hi : iv.length = 16) (_hs : salt.length = 6) :
    (∀ i, i < 6 →
        (ganGen2EncrypterKeyIv key iv salt).1.getD i 0 = (key.getD i 0 + salt.getD i 0) % 255
        ∧ (ganGen2EncrypterKeyIv key iv salt).2.getD i 0 = (iv.getD i 0 + salt.getD i 0) % 255)
    ∧ (∀ i, 6 ≤ i → i < 16 →
        (ganGen2EncrypterKeyIv key iv salt).1.getD i 0 = key.getD i 0
        ∧ (ganGen2EncrypterKeyIv key iv salt).2.getD i 0 = iv.getD i 0) := by
  constructor
  · intro i h6
    rw [ganGen2EncrypterKeyIv]
    rw [saltBytes_getD key salt i (by omega), saltBytes_getD iv salt i (by omega)]
    simp [h6]
  · intro i h6 h16
    rw [ganGen2EncrypterKeyIv]
    rw [saltBytes_getD key salt i (by omega), saltBytes_getD iv salt i (by omega)]
    simp [Nat.not_lt_of_ge h6]

/-- Witness for C8 at the real GAN key/iv and a concrete salt, at `i = 0`
(salted) and `i = 6` (unchanged). -/
theorem c8_effective_key_iv_witness :
    ((ganGen2EncrypterKeyIv ganKey ganIv macSalt).1.getD 0 0
        = (ganKey.getD 0 0 + macSalt.getD 0 0) % 255
      ∧ (ganGen2EncrypterKeyIv ganKey ganIv macSalt).2.getD 0 0
        = (ganIv.getD 0 0 + macSalt.getD 0 0) % 255)
    ∧ ((ganGen2EncrypterKeyIv ganKey ganIv macSalt).1.getD 6 0 = ganKey.getD 6 0
      ∧ (ganGen2EncrypterKeyIv ganKey ganIv macSalt).2.getD 6 0 = ganIv.getD 6 0) :=
  ⟨(c8_effective_key_iv ganKey ganIv macSalt (by decide) (by decide) (by decide)).1 0 (by decide),
   (c8_effective_key_iv ganKey ganIv macSalt (by decide) (by decide) (by decide)).2 6
     (by decide) (by decide)⟩

set_option maxRecDepth 8192

/-- In-range list reads succeed with the indexed byte. -/
theorem listGetElem?_eq_some_getD (l : List Nat) (i : Nat) (h : i < l.length) :
    l[i]? = some (l.getD i 0) := by
  simp [List.getD_eq_getElem?_getD, List.getElem?_eq_getElem h]

/-- C6: a validated timer frame whose state byte (offset 3) is `STOPPED` (4)
yields an event whose `recordedTime` is built from bytes 4..7 as
`(u8 minutes, u8 seconds, u16-LE milliseconds)` with
`asTimestamp = 60000·min + 1000·sec + ms`; any other state yields an event
without `recordedTime`. -/
theorem c6_timer_stopped_time (bytes : List Nat)
    (_hv : validateEventData bytes = true) :
    (8 ≤ bytes.length → bytes.getD 3 0 = timerStateStopped →
      buildTimerEvent bytes = Except.ok
        { state := timerStateStopped,
          recordedTime := some
            { minutes := bytes.getD 4 0, seconds := bytes.getD 5 0,
              milliseconds := bytes.getD 6 0 + 256 * bytes.getD 7 0,
              asTimestamp := 60000 * bytes.getD 4 0 + 1000 * bytes.getD 5 0
                + (bytes.getD 6 0 + 256 * bytes.getD 7 0) } })
    ∧ (4 ≤ bytes.length → bytes.getD 3 0 ≠ timerStateStopped →
      buildTimerEvent bytes = Except.ok { state := bytes.getD 3 0, recordedTime := none }) := by
  constructor
  · intro hlen hst
    have e3 := listGetElem?_eq_some_getD bytes 3 (by omega)
    have e4 := listGetElem?_eq_some_getD bytes 4 (by omega)
    have e5 := listGetElem?_eq_some_getD bytes 5 (by omega)
    have e6 := listGetElem?_eq_some_getD bytes 6 (by omega)
    have e7 := listGetElem?_eq_some_getD bytes 7 (by omega)
    simp only [buildTimerEvent, getUint8, getUint16LE, makeTimeFromRaw, makeTime,
      List.get?_eq_getElem?, e3, e4, e5, e6, e7, hst]
    rfl
  · intro hlen hst
    have e3 := listGetElem?_eq_some_getD bytes 3 (by omega)
    simp only [buildTimerEvent, getUint8, List.get?_eq_getElem?, e3,
      bind, Except.bind, if_neg hst]
    rfl

/-- Witness for C6: the STOPPED frame decodes to 0:12.100 (12100 ms), the
RUNNING frame carries no recorded time. -/
theorem c6_timer_stopped_time_witness :
    validateEventData timerStoppedFrame = true
    ∧ buildTimerEvent timerStoppedFrame = Except.ok
        { state := 4,
          recordedTime := some
            { minutes := 0, seconds := 12, milliseconds := 100, asTimestamp := 12100 } }
    ∧ validateEventData timerRunningFrame = true
    ∧ buildTimerEvent timerRunningFrame = Except.ok { state := 3, recordedTime := none } :=
  ⟨by decide,
   by
    have h := (c6_timer_stopped_time timerStoppedFrame (by decide)).1 (by decide) (by decide)
    exact h.trans (by rfl),
   by decide,
   by
    have h := (c6_timer_stopped_time timerRunningFrame (by decide)).2 (by decide) (by decide)
    exact h.trans (by rfl)⟩

/- ===================== C9: the bit view ===================== -/

theorem messageBits_length (msg : List Nat) : (messageBits msg).length = 8 * msg.length := by
  induction msg with
  | nil => rfl
  | cons b rest ih => simp [messageBits, List.flatMap] at ih ⊢; omega

/-- The MSB-first binary fold equals the naive weighted bit sum. -/
theorem parseFold (bs : List Bool) (a : Nat) :
    bs.foldl (fun n b => 2 * n + (if b then 1 else 0)) a
      = a * 2 ^ bs.length
        + ∑ i ∈ Finset.range bs.length, (if bs.getD i false then 2 ^ (bs.length - 1 - i) else 0) := by
  induction bs generalizing a with
  | nil => simp
  | cons b rest ih =>
    simp only [List.foldl_cons, List.length_cons]
    rw [ih]
    rw [Finset.sum_range_succ']
    simp only [List.getD_cons_succ, List.getD_cons_zero]
    have h1 : ∀ i, rest.length + 1 - 1 - (i + 1) = rest.length - 1 - i := by omega
    have h2 : rest.length + 1 - 1 - 0 = rest.length := by omega
    simp only [h1, h2]
    ring_nf
    cases b <;> simp <;> ring

theorem slice_getD (bits : List Bool) (start len i : Nat) (hi : i < len)
    (_hr : start + len ≤ bits.length) :
    ((bits.drop start).take len).getD i false = bits.getD (start + i) false := by
  simp [List.getD_eq_getElem?_getD, List.getElem?_take, hi, List.getElem?_drop]

theorem slice_length (bits : List Bool) (start len : Nat) (hr : start + len ≤ bits.length) :
    ((bits.drop start).take len).length = len := by
  simp [List.length_take, List.length_drop]; omega

/-- In-range slice value: `parseInt` of the bit slice equals the naive sum. -/
theorem parseBits_slice (msg : List Nat) (start len : Nat) (h1 : 1 ≤ len)
    (hr : start + len ≤ 8 * msg.length) :
    parseBits (((messageBits msg).drop start).take len) = some (bitsValueSpec msg start len) := by
  have hb : start + len ≤ (messageBits msg).length := by rw [messageBits_length]; omega
  have hlen := slice_length (messageBits msg) start len hb
  have hne : ((messageBits msg).drop start).take len ≠ [] := by
    intro h; rw [h] at hlen; simp at hlen; omega
  rw [parseBits, if_neg (by simpa [List.isEmpty_iff] using hne)]
  congr 1
  rw [parseFold, hlen]
  rw [bitsValueSpec]
  rw [Finset.sum_congr rfl (fun i hi => by
    rw [slice_getD (messageBits msg) start len i (Finset.mem_range.mp hi) hb])]
  omega

/-- C9 (amended): `getBitWord` errors exactly when the bit length is above 8
and not 16 or 32 (a length of 0 falls into the `≤ 8` branch and yields `NaN`
rather than an error); for lengths 1..8 with the bit range inside the buffer it
returns the unsigned integer formed by those bits; for 16/32 bits it assembles
the bytes at offsets `start + 8·i` big-endian, or little-endian when the flag
is set; the error never depends on the buffer contents. -/
theorem c9_getBitWord_spec :
    (∀ (msg : List Nat) (start len : Nat) (le : Bool),
        (∃ e, getBitWord msg start len le = Except.error e) ↔ (8 < len ∧ len ≠ 16 ∧ len ≠ 32))
    ∧ (∀ (msg : List Nat) (start len : Nat) (le : Bool),
        1 ≤ len → len ≤ 8 → start + len ≤ 8 * msg.length →
        getBitWord msg start len le = Except.ok (some (bitsValueSpec msg start len)))
    ∧ (∀ (msg : List Nat) (start : Nat), start + 16 ≤ 8 * msg.length →
        getBitWord msg start 16 false = Except.ok (some
          (256 * bitsValueSpec msg start 8 + bitsValueSpec msg (start + 8) 8))
        ∧ getBitWord msg start 16 true = Except.ok (some
          (256 * bitsValueSpec msg (start + 8) 8 + bitsValueSpec msg start 8)))
    ∧ (∀ (msg : List Nat) (start : Nat), start + 32 ≤ 8 * msg.length →
        getBitWord msg start 32 false = Except.ok (some
          (16777216 * bitsValueSpec msg start 8 + 65536 * bitsValueSpec msg (start + 8) 8
            + 256 * bitsValueSpec msg (start + 16) 8 + bitsValueSpec msg (start + 24) 8))
        ∧ getBitWord msg start 32 true = Except.ok (some
          (16777216 * bitsValueSpec msg (start + 24) 8 + 65536 * bitsValueSpec msg (start + 16) 8
            + 256 * bitsValueSpec msg (start + 8) 8 + bitsValueSpec msg start 8))) := by
  refine ⟨?_, ?_, ?_, ?_⟩
  · intro msg start len le
    constructor
    · rintro ⟨e, he⟩
      by_contra hc
      rw [getBitWord] at he
      by_cases h8 : len ≤ 8
      · simp [h8] at he
      · have : len = 16 ∨ len = 32 := by omega
        simp [h8, this] at he
    · rintro ⟨h8, h16, h32⟩
      refine ⟨errUnsupportedBitLength, ?_⟩
      rw [getBitWord]
      have : ¬ (len ≤ 8) := by omega
      have h2 : ¬ (len = 16 ∨ len = 32) := by omega
      simp [this, h2]
  · intro msg start len le h1 h8 hr
    rw [getBitWord]
    simp only [h8, if_true]
    rw [parseBits_slice msg start len h1 hr]
  · intro msg start hr
    have b0 := parseBits_slice msg start 8 (by omega) (by omega)
    have b1 := parseBits_slice msg (start + 8) 8 (by omega) (by omega)
    constructor <;>
    · rw [getBitWord]
      norm_num
      rw [show List.range 2 = [0, 1] from rfl]
      simp only [List.map_cons, List.map_nil]
      rw [show 8 * 0 + start = start by omega, show 8 * 1 + start = start + 8 by omega]
      rw [b0, b1]
      simp [bytesToNatBE]
  · intro msg start hr
    have b0 := parseBits_slice msg start 8 (by omega) (by omega)
    have b1 := parseBits_slice msg (start + 8) 8 (by omega) (by omega)
    have b2 := parseBits_slice msg (start + 16) 8 (by omega) (by omega)
    have b3 := parseBits_slice msg (start + 24) 8 (by omega) (by omega)
    constructor <;>
    · rw [getBitWord]
      norm_num
      rw [show List.range 4 = [0, 1, 2, 3] from rfl]
      simp only [List.map_cons, List.map_nil]
      rw [show 8 * 0 + start = start by omega, show 8 * 1 + start = start + 8 by omega,
        show 8 * 2 + start = start + 16 by omega, show 8 * 3 + start = start + 24 by omega]
      rw [b0, b1, b2, b3]
      simp [bytesToNatBE]
      ring

/-- Counterexample to C9 as stated: a bit length of 0 is outside
`{1..8, 16, 32}` yet `getBitWord` does not throw — it takes the `≤ 8` branch
and returns `NaN` (`none`). -/
theorem c9_getBitWord_cex : getBitWord [0] 0 0 false = Except.ok none
    ∧ (0 : Nat) ∉ [1, 2, 3, 4, 5, 6, 7, 8, 16, 32] :=
  ⟨rfl, by decide⟩

/-- Witness for C9: a concrete in-range 8-bit read and a concrete erroring
9-bit read. -/
theorem c9_getBitWord_spec_witness :
    getBitWord [0xAB, 0xCD] 4 8 false = Except.ok (some (bitsValueSpec [0xAB, 0xCD] 4 8))
    ∧ (∃ e, getBitWord [0xAB, 0xCD] 0 9 false = Except.error e) :=
  ⟨c9_getBitWord_spec.2.1 [0xAB, 0xCD] 4 8 false (by decide) (by decide) (by decide),
   (c9_getBitWord_spec.1 [0xAB, 0xCD] 0 9 false).mpr (by decide)⟩

/- ===================== C2: AES envelope round trip ===================== -/

theorem xorBytes_length (a b : List Nat) : (xorBytes a b).length = min a.length b.length := by
  simp [xorBytes]

theorem xorBytes_cancel (a b : List Nat) (h : a.length = b.length) :
    xorBytes (xorBytes a b) b = a := by
  induction a generalizing b with
  | nil => simp [xorBytes]
  | cons x xs ih =>
    cases b with
    | nil => simp at h
    | cons y ys =>
      simp [xorBytes] at ih ⊢
      exact ⟨Nat.xor_cancel_right y x, ih ys (by simpa using h)⟩

theorem setSlice_length (buf chunk : List Nat) (off : Nat)
    (h : off + chunk.length ≤ buf.length) :
    (setSlice buf off chunk).length = buf.length := by
  simp [setSlice]; omega

theorem sliceAt_length (buf : List Nat) (off : Nat) (h : off + 16 ≤ buf.length) :
    (sliceAt buf off).length = 16 := by
  simp [sliceAt]; omega

theorem sliceAt_setSlice (buf chunk : List Nat) (off : Nat)
    (hc : chunk.length = 16) (h : off + 16 ≤ buf.length) :
    sliceAt (setSlice buf off chunk) off = chunk := by
  rw [sliceAt, setSlice, List.append_assoc]
  rw [List.drop_left' (by simp; omega)]
  rw [List.take_left' hc]

theorem take_setSlice (buf chunk : List Nat) (off : Nat) (h : off ≤ buf.length) :
    (setSlice buf off chunk).take off = buf.take off := by
  rw [setSlice, List.append_assoc]
  exact List.take_left' (by simp; omega)

theorem drop_setSlice (buf chunk : List Nat) (off : Nat) (h : off ≤ buf.length) :
    (setSlice buf off chunk).drop (off + chunk.length) = buf.drop (off + chunk.length) := by
  rw [setSlice]
  rw [show buf.take off ++ chunk ++ buf.drop (off + chunk.length)
      = (buf.take off ++ chunk) ++ buf.drop (off + chunk.length) from rfl]
  exact List.drop_left' (by simp; omega)

theorem setSlice_setSlice (buf a b : List Nat) (off : Nat)
    (hab : a.length = b.length) (h : off + a.length ≤ buf.length) :
    setSlice (setSlice buf off a) off b = setSlice buf off b := by
  conv_lhs => rw [setSlice]
  conv_rhs => rw [setSlice]
  rw [← hab]
  rw [take_setSlice buf a off (by omega), drop_setSlice buf a off (by omega)]

theorem setSlice_sliceAt_self (buf : List Nat) (off : Nat) (h : off + 16 ≤ buf.length) :
    setSlice buf off (sliceAt buf off) = buf := by
  rw [setSlice, sliceAt_length buf off h, sliceAt]
  rw [show buf.drop (off + 16) = (buf.drop off).drop 16 by rw [List.drop_drop]]
  rw [List.append_assoc, List.take_append_drop, List.take_append_drop]

theorem xorSlice_length (iv buf : List Nat) (off : Nat)
    (hiv : iv.length = 16) (h : off + 16 ≤ buf.length) :
    (xorBytes (sliceAt buf off) iv).length = 16 := by
  rw [xorBytes_length, sliceAt_length buf off h, hiv]
  simp

theorem encryptChunk_length (encB : List Nat → List Nat) (iv buf : List Nat) (off : Nat)
    (hlenB : ∀ b : List Nat, b.length = 16 → (encB b).length = 16)
    (hiv : iv.length = 16) (h : off + 16 ≤ buf.length) :
    (encryptChunk encB iv buf off).length = buf.length := by
  rw [encryptChunk]
  rw [setSlice_length]
  rw [hlenB _ (xorSlice_length iv buf off hiv h)]
  omega

theorem decryptChunk_encryptChunk (encB decB : List Nat → List Nat) (iv buf : List Nat)
    (off : Nat)
    (hinv : ∀ b : List Nat, b.length = 16 → decB (encB b) = b)
    (hlenB : ∀ b : List Nat, b.length = 16 → (encB b).length = 16)
    (hiv : iv.length = 16) (h : off + 16 ≤ buf.length) :
    decryptChunk decB iv (encryptChunk encB iv buf off) off = buf := by
  have hx := xorSlice_length iv buf off hiv h
  rw [encryptChunk, decryptChunk]
  rw [sliceAt_setSlice _ _ _ (hlenB _ hx) h]
  rw [hinv _ hx]
  rw [xorBytes_cancel _ _ (by rw [sliceAt_length buf off h, hiv])]
  rw [setSlice_setSlice _ _ _ _ (by rw [hlenB _ hx, sliceAt_length buf off h])
    (by rw [hlenB _ hx]; omega)]
  exact setSlice_sliceAt_self buf off h

/-- C2: with the AES block cipher abstracted as a length-preserving block
permutation `encB` with inverse `decB`, `decrypt(encrypt(msg)) = msg` for every
buffer with `16 ≤ |msg| ≤ 64` (the head chunk at offset 0 and, when longer
than 16, the possibly overlapping tail chunk at `|msg| - 16`, undone in
reverse order), and both `encrypt` and `decrypt` throw for `|msg| < 16`. -/
theorem c2_encrypt_decrypt (encB decB : List Nat → List Nat) (iv : List Nat)
    (hinv : ∀ b : List Nat, b.length = 16 → decB (encB b) = b)
    (hlenB : ∀ b : List Nat, b.length = 16 → (encB b).length = 16)
    (hiv : iv.length = 16) :
    (∀ msg : List Nat, 16 ≤ msg.length → msg.length ≤ 64 →
      ∃ c, ganEncrypt encB iv msg = Except.ok c ∧ ganDecrypt decB iv c = Except.ok msg)
    ∧ (∀ msg : List Nat, msg.length < 16 →
      ganEncrypt encB iv msg = Except.error errShortMessage
      ∧ ganDecrypt decB iv msg = Except.error errShortMessage) := by
  constructor
  · intro msg h16 h64
    by_cases hgt : msg.length > 16
    · have hoff : (msg.length - 16) + 16 ≤ msg.length := by omega
      have hl1 : (encryptChunk encB iv msg 0).length = msg.length :=
        encryptChunk_length encB iv msg 0 hlenB hiv (by omega)
      have hl2 : (encryptChunk encB iv (encryptChunk encB iv msg 0) (msg.length - 16)).length
          = msg.length := by
        rw [encryptChunk_length encB iv _ (msg.length - 16) hlenB hiv (by omega), hl1]
      refine ⟨encryptChunk encB iv (encryptChunk encB iv msg 0) (msg.length - 16), ?_, ?_⟩
      · rw [ganEncrypt, if_neg (by omega)]
        rw [if_pos hgt]
      · rw [ganDecrypt, if_neg (by omega)]
        rw [if_pos (by omega : (encryptChunk encB iv (encryptChunk encB iv msg 0)
          (msg.length - 16)).length > 16)]
        rw [hl2]
        rw [decryptChunk_encryptChunk encB decB iv _ (msg.length - 16) hinv hlenB hiv
          (by omega)]
        rw [decryptChunk_encryptChunk encB decB iv msg 0 hinv hlenB hiv (by omega)]
    · have h1 : msg.length = 16 := by omega
      have hl1 : (encryptChunk encB iv msg 0).length = msg.length :=
        encryptChunk_length encB iv msg 0 hlenB hiv (by omega)
      refine ⟨encryptChunk encB iv msg 0, ?_, ?_⟩
      · rw [ganEncrypt, if_neg (by omega)]
        rw [if_neg hgt]
      · rw [ganDecrypt, if_neg (by omega)]
        rw [if_neg (by omega : ¬ (encryptChunk encB iv msg 0).length > 16)]
        rw [decryptChunk_encryptChunk encB decB iv msg 0 hinv hlenB hiv (by omega)]
  · intro msg hlt
    rw [ganEncrypt, if_pos hlt, ganDecrypt, if_pos hlt]
    exact ⟨rfl, rfl⟩

/-- Witness for C2 with the identity block permutation, the GAN iv and a
20-byte message (overlapping chunks). -/
theorem c2_encrypt_decrypt_witness :
    ∃ c, ganEncrypt (fun b => b) ganIv (List.range 20) = Except.ok c
      ∧ ganDecrypt (fun b => b) ganIv c = Except.ok (List.range 20) :=
  (c2_encrypt_decrypt (fun b => b) (fun b => b) ganIv (fun _ _ => rfl) (fun _ h => h)
    (by decide)).1 (List.range 20) (by decide) (by decide)

/- ===================== C4: Gen2 MOVE branch ===================== -/

theorem gen2_fold_proj (msg : List Nat) (ts : Int) (serial : Nat) (idxs : List Nat)
    (s0 : Gen2State) (l0 : List Gen2MoveEvent) :
    ((idxs.foldl (gen2MoveStep msg ts serial) (s0, l0)).2).map
        (fun e => (e.serial, e.localTimestamp))
      = l0.map (fun e => (e.serial, e.localTimestamp))
        ++ idxs.map (fun (i : Nat) => ((((serial : Int) - (i : Int)) % 256).toNat,
            if i = 0 then some ts else none))
    ∧ ((idxs.foldl (gen2MoveStep msg ts serial) (s0, l0)).1).lastSerial = s0.lastSerial := by
  induction idxs generalizing s0 l0 with
  | nil => simp
  | cons i rest ih =>
    simp only [List.foldl_cons, List.map_cons]
    rw [gen2MoveStep]
    refine ⟨?_, ?_⟩
    · rw [(ih _ _).1]
      simp
    · rw [(ih _ _).2]

/-- C4: for a Gen2 move frame, nothing is emitted while `lastSerial = -1`;
otherwise with `diff = min((serial - lastSerial) mod 256, 7)` exactly `diff`
MOVE events are returned oldest-first with serials `serial-diff+1 … serial`
(mod 256), only the freshest (last) event carries a non-null
`localTimestamp`, and `lastSerial` is overwritten with the frame serial even
when `diff = 0`. -/
theorem c4_gen2_move (st : Gen2State) (msg : List Nat) (timestamp : Int) :
    (st.lastSerial = -1 → gen2MoveBranch st msg timestamp = (st, [])) ∧
    (st.lastSerial ≠ -1 →
      (gen2MoveBranch st msg timestamp).1.lastSerial = ((bitWord msg 4 8 : Nat) : Int)
      ∧ (gen2MoveBranch st msg timestamp).2.length
          = min ((((bitWord msg 4 8 : Nat) : Int) - st.lastSerial) % 256).toNat 7
      ∧ (∀ j (hj : j < (gen2MoveBranch st msg timestamp).2.length),
          (((gen2MoveBranch st msg timestamp).2[j].serial : Int)
            = (((bitWord msg 4 8 : Nat) : Int)
                - ((gen2MoveBranch st msg timestamp).2.length : Int) + 1 + (j : Int)) % 256)
          ∧ ((gen2MoveBranch st msg timestamp).2[j].localTimestamp
            = if j = (gen2MoveBranch st msg timestamp).2.length - 1 then some timestamp
              else none))) := by
  constructor
  · intro h
    rw [gen2MoveBranch, if_pos h]
  · intro h
    have hls : (gen2MoveBranch st msg timestamp).1.lastSerial = ((bitWord msg 4 8 : Nat) : Int) := by
      simp only [gen2MoveBranch, if_neg h]
      by_cases hd : 0 < min ((((bitWord msg 4 8 : Nat) : Int) - st.lastSerial) % 256).toNat 7
      · simp only [if_pos hd]
        exact (gen2_fold_proj msg timestamp (bitWord msg 4 8) _ _ _).2
      · simp only [if_neg hd]
    have hmap : (gen2MoveBranch st msg timestamp).2.map (fun e => (e.serial, e.localTimestamp))
        = ((List.range (min ((((bitWord msg 4 8 : Nat) : Int) - st.lastSerial) % 256).toNat 7)).reverse).map
            (fun (i : Nat) => (((((bitWord msg 4 8 : Nat) : Int) - (i : Int)) % 256).toNat,
              if i = 0 then some timestamp else none)) := by
      simp only [gen2MoveBranch, if_neg h]
      by_cases hd : 0 < min ((((bitWord msg 4 8 : Nat) : Int) - st.lastSerial) % 256).toNat 7
      · simp only [if_pos hd]
        have h0 := (gen2_fold_proj msg timestamp (bitWord msg 4 8)
          ((List.range (min ((((bitWord msg 4 8 : Nat) : Int) - st.lastSerial) % 256).toNat 7)).reverse)
          ({ st with lastSerial := ((bitWord msg 4 8 : Nat) : Int) }) []).1
        simp only [List.map_nil, List.nil_append] at h0
        exact h0
      · simp only [if_neg hd]
        have hd0 : min ((((bitWord msg 4 8 : Nat) : Int) - st.lastSerial) % 256).toNat 7 = 0 := by
          omega
        simp [hd0]
    have hlen : (gen2MoveBranch st msg timestamp).2.length
        = min ((((bitWord msg 4 8 : Nat) : Int) - st.lastSerial) % 256).toNat 7 := by
      have := congrArg List.length hmap
      simpa using this
    refine ⟨hls, hlen, ?_⟩
    intro j hj
    set diff := min ((((bitWord msg 4 8 : Nat) : Int) - st.lastSerial) % 256).toNat 7 with hdiff
    have hjd : j < diff := by rw [← hlen]; exact hj
    have hel0 : ((gen2MoveBranch st msg timestamp).2.map (fun e => (e.serial, e.localTimestamp)))[j]?
        = (((List.range diff).reverse).map
            (fun (i : Nat) => (((((bitWord msg 4 8 : Nat) : Int) - (i : Int)) % 256).toNat,
              if i = 0 then some timestamp else none)))[j]? := by
      rw [hmap]
    rw [List.getElem?_map, List.getElem?_map] at hel0
    rw [List.getElem?_eq_getElem hj, List.getElem?_eq_getElem (by simp; omega :
      j < ((List.range diff).reverse).length)] at hel0
    simp only [Option.map_some] at hel0
    have hel := Option.some.inj hel0
    simp only [List.getElem_reverse, List.length_range, List.getElem_range] at hel
    have hser : (gen2MoveBranch st msg timestamp).2[j].serial
        = ((((bitWord msg 4 8 : Nat) : Int) - ((diff - 1 - j : Nat) : Int)) % 256).toNat := by
      exact congrArg Prod.fst hel
    have hloc : (gen2MoveBranch st msg timestamp).2[j].localTimestamp
        = if diff - 1 - j = 0 then some timestamp else none := by
      exact congrArg Prod.snd hel
    constructor
    · rw [hser, hlen]
      omega
    · rw [hloc, hlen]
      by_cases hz : j = diff - 1
      · have h0 : diff - 1 - j = 0 := by omega
        simp [h0, hz]
      · have h0 : ¬ (diff - 1 - j = 0) := by omega
        simp [h0, hz]

/-- Witness for C4: a concrete frame with serial 5 against `lastSerial = 3`
(diff 2): two events, serials 4 then 5, only the second with a local
timestamp, and `lastSerial` updated to 5. -/
theorem c4_gen2_move_witness :
    (gen2MoveBranch { lastSerial := 3, lastMoveTimestamp := 0, cubeTimestamp := 0 }
        [0x20, 0x50, 0, 0, 0, 0, 0, 0, 0, 0, 0, 0, 0, 0, 0, 0, 0, 0, 0, 0] 100).1.lastSerial = 5
    ∧ (gen2MoveBranch { lastSerial := 3, lastMoveTimestamp := 0, cubeTimestamp := 0 }
        [0x20, 0x50, 0, 0, 0, 0, 0, 0, 0, 0, 0, 0, 0, 0, 0, 0, 0, 0, 0, 0] 100).2.length = 2
    ∧ (gen2MoveBranch { lastSerial := 3, lastMoveTimestamp := 0, cubeTimestamp := 0 }
        [0x20, 0x50, 0, 0, 0, 0, 0, 0, 0, 0, 0, 0, 0, 0, 0, 0, 0, 0, 0, 0] 100).2.map
        (fun e => (e.serial, e.localTimestamp)) = [(4, none), (5, some 100)] := by
  have h := (c4_gen2_move { lastSerial := 3, lastMoveTimestamp := 0, cubeTimestamp := 0 }
    [0x20, 0x50, 0, 0, 0, 0, 0, 0, 0, 0, 0, 0, 0, 0, 0, 0, 0, 0, 0, 0] 100).2 (by decide)
  refine ⟨h.1.trans (by decide), h.2.1.trans (by decide), by decide⟩

/- ===================== C3: evictMoveBuffer ===================== -/

theorem evictLoop_spec (buf : List GanCubeMoveEvent) (ls : Int) :
    buf = (evictLoop ls buf).1 ++ (evictLoop ls buf).2.2.2
    ∧ ((evictLoop ls buf).1 = [] → (evictLoop ls buf).2.1 = ls)
    ∧ (∀ h : (evictLoop ls buf).1 ≠ [],
        (evictLoop ls buf).2.1 = (((evictLoop ls buf).1.getLast h).serial : Int))
    ∧ (∀ m rest, (evictLoop ls buf).2.2.2 = m :: rest →
        (if (evictLoop ls buf).2.1 = -1 then (1 : Int)
          else ((m.serial : Int) - (evictLoop ls buf).2.1) % 256) > 1
        ∧ (evictLoop ls buf).2.2.1 = some (m.serial,
            (if (evictLoop ls buf).2.1 = -1 then (1 : Int)
              else ((m.serial : Int) - (evictLoop ls buf).2.1) % 256)))
    ∧ ((evictLoop ls buf).2.2.2 = [] → (evictLoop ls buf).2.2.1 = none) := by
  induction buf generalizing ls with
  | nil => simp [evictLoop]
  | cons m rest ih =>
    by_cases hd : (if ls = -1 then (1 : Int) else ((m.serial : Int) - ls) % 256) > 1
    · rw [evictLoop]
      simp only [if_pos hd]
      refine ⟨rfl, ?_, ?_, ?_, ?_⟩
      · intro h
        first | rfl | trivial | exact absurd h (by simp)
      · intro h
        first | rfl | trivial | exact absurd rfl h
      · intro m' rest' hmr
        rw [List.cons.injEq] at hmr
        rw [← hmr.1]
        exact ⟨hd, rfl⟩
      · intro h
        first | rfl | trivial | exact absurd h (by simp)
    · rw [evictLoop]
      simp only [if_neg hd]
      obtain ⟨ih1, ih2, ih3, ih4, ih5⟩ := ih (m.serial : Int)
      refine ⟨?_, ?_, ?_, ?_, ?_⟩
      · simp only [List.cons_append]
        rw [← ih1]
      · intro h
        simp at h
      · intro h
        by_cases he : (evictLoop (m.serial : Int) rest).1 = []
        · rw [List.getLast_eq_getElem]
          simp only [he]
          simp [ih2 he]
        · rw [List.getLast_cons (by exact he)]
          exact ih3 he
      · exact ih4
      · exact ih5

theorem evictLoop_head_iff (m : GanCubeMoveEvent) (rest : List GanCubeMoveEvent) (ls : Int) :
    (evictLoop ls (m :: rest)).1 ≠ [] ↔
      (if ls = -1 then (1 : Int) else ((m.serial : Int) - ls) % 256) ≤ 1 := by
  by_cases hd : (if ls = -1 then (1 : Int) else ((m.serial : Int) - ls) % 256) > 1
  · rw [evictLoop]
    simp only [if_pos hd]
    simp
    omega
  · rw [evictLoop]
    simp only [if_neg hd]
    simp
    omega

/-- C3 (amended): one call of `evictMoveBuffer` splits the buffer into the
evicted prefix and the remaining suffix; the head is evicted exactly when
`diff = (head.serial - lastSerial) mod 256` is at most 1 (also for `diff = 0`,
not only `diff = 1`; `diff` is taken as 1 when `lastSerial = -1`);
`lastSerial` becomes the serial of the last evicted move (unchanged when none);
when eviction stops at a gap the history request carries
`(head.serial, diff)` of the new head exactly when a connection was supplied;
and `disconnect` is invoked exactly when a connection was supplied and more
than 16 moves remain buffered. -/
theorem c3_evict_spec (st : Gen3State) (hasConn : Bool) :
    st.moveBuffer = (evictMoveBuffer st hasConn).1 ++ (evictMoveBuffer st hasConn).2.1.moveBuffer
    ∧ (evictMoveBuffer st hasConn).2.1.serial = st.serial
    ∧ (∀ m rest, st.moveBuffer = m :: rest →
        ((evictMoveBuffer st hasConn).1 ≠ [] ↔
          (if st.lastSerial = -1 then (1 : Int) else ((m.serial : Int) - st.lastSerial) % 256) ≤ 1))
    ∧ ((evictMoveBuffer st hasConn).1 = []
        → (evictMoveBuffer st hasConn).2.1.lastSerial = st.lastSerial)
    ∧ (∀ h : (evictMoveBuffer st hasConn).1 ≠ [],
        (evictMoveBuffer st hasConn).2.1.lastSerial
          = (((evictMoveBuffer st hasConn).1.getLast h).serial : Int))
    ∧ (∀ m rest, (evictMoveBuffer st hasConn).2.1.moveBuffer = m :: rest →
        (if (evictMoveBuffer st hasConn).2.1.lastSerial = -1 then (1 : Int)
          else ((m.serial : Int) - (evictMoveBuffer st hasConn).2.1.lastSerial) % 256) > 1
        ∧ (evictMoveBuffer st hasConn).2.2.1
            = (if hasConn then some (m.serial,
                (if (evictMoveBuffer st hasConn).2.1.lastSerial = -1 then (1 : Int)
                  else ((m.serial : Int) - (evictMoveBuffer st hasConn).2.1.lastSerial) % 256))
              else none))
    ∧ ((evictMoveBuffer st hasConn).2.1.moveBuffer = [] → (evictMoveBuffer st hasConn).2.2.1 = none)
    ∧ ((evictMoveBuffer st hasConn).2.2.2
        = (hasConn && (evictMoveBuffer st hasConn).2.1.moveBuffer.length > 16)) := by
  obtain ⟨l1, l2, l3, l4, l5⟩ := evictLoop_spec st.moveBuffer st.lastSerial
  have e1 : (evictMoveBuffer st hasConn).1 = (evictLoop st.lastSerial st.moveBuffer).1 := rfl
  have e2 : (evictMoveBuffer st hasConn).2.1.moveBuffer
      = (evictLoop st.lastSerial st.moveBuffer).2.2.2 := rfl
  have e2l : (evictMoveBuffer st hasConn).2.1.lastSerial
      = (evictLoop st.lastSerial st.moveBuffer).2.1 := rfl
  have e2s : (evictMoveBuffer st hasConn).2.1.serial = st.serial := rfl
  have e3 : (evictMoveBuffer st hasConn).2.2.1
      = (if hasConn then (evictLoop st.lastSerial st.moveBuffer).2.2.1 else none) := rfl
  have e4 : (evictMoveBuffer st hasConn).2.2.2
      = (hasConn && decide ((evictLoop st.lastSerial st.moveBuffer).2.2.2.length > 16)) := rfl
  refine ⟨?_, e2s, ?_, ?_, ?_, ?_, ?_, ?_⟩
  · rw [e1, e2]
    exact l1
  · intro m rest hmr
    rw [e1, hmr]
    exact evictLoop_head_iff m rest st.lastSerial
  · intro h
    rw [e2l]
    exact l2 (by rw [← e1]; exact h)
  · intro h
    exact l3 h
  · intro m rest hmr
    rw [e2] at hmr
    obtain ⟨p1, p2⟩ := l4 m rest hmr
    rw [e2l, e3]
    refine ⟨p1, ?_⟩
    cases hasConn
    · simp
    · simp only [if_pos rfl]
      rw [p2]
  · intro h
    rw [e2] at h
    rw [e3, l5 h]
    cases hasConn <;> simp
  · rw [e4, e2]

/-- Counterexample to C3 as stated: with `lastSerial = 5` and a buffered move
of serial 5 the diff is 0, not 1, yet the head is removed and emitted. -/
theorem c3_evict_cex :
    (evictMoveBuffer { serial := 5, lastSerial := 5, moveBuffer := [mkMove 5] } true).1
      = [mkMove 5]
    ∧ ¬ ((((mkMove 5).serial : Int) - (5 : Int)) % 256 = 1) :=
  ⟨rfl, by decide⟩

/-- Witness for C3: buffer `[5, 6, 9]` against `lastSerial = 4` evicts 5 and 6,
stops at the gap before 9 requesting history for `(9, 3)`, and does not
disconnect. -/
theorem c3_evict_spec_witness :
    (evictMoveBuffer ⟨7, 4, [mkMove 5, mkMove 6, mkMove 9]⟩ true).1 = [mkMove 5, mkMove 6]
    ∧ (evictMoveBuffer ⟨7, 4, [mkMove 5, mkMove 6, mkMove 9]⟩ true).2.1.lastSerial = 6
    ∧ (evictMoveBuffer ⟨7, 4, [mkMove 5, mkMove 6, mkMove 9]⟩ true).2.2.1 = some (9, 3)
    ∧ (evictMoveBuffer ⟨7, 4, [mkMove 5, mkMove 6, mkMove 9]⟩ true).2.2.2 = false := by
  have h := c3_evict_spec ⟨7, 4, [mkMove 5, mkMove 6, mkMove 9]⟩ true
  refine ⟨by decide, ?_, ?_, by decide⟩
  · have h5 := h.2.2.2.2.1 (by decide)
    exact h5.trans (by decide)
  · have h6 := (h.2.2.2.2.2.1 (mkMove 9) [] (by decide)).2
    exact h6.trans (by decide)

/- ===================== C7: Gen4 hardware aggregation ===================== -/

/-- C7: feeding the four hardware sub-frame types 0xFA, 0xFC, 0xFD, 0xFE in
any order, each once, yields no HARDWARE event for the first three sub-frames
and exactly one upon the fourth, carrying the product date, name, software
version and hardware version, with `gyroSupported` true iff the decoded name
is `"GAN12uiM"`. -/
theorem c7_gen4_hardware (mFA mFC mFD mFE : List Nat)
    (hFA : bitWord mFA 0 8 = 0xFA) (hFC : bitWord mFC 0 8 = 0xFC)
    (hFD : bitWord mFD 0 8 = 0xFD) (hFE : bitWord mFE 0 8 = 0xFE)
    (l : List (List Nat)) (hl : l ∈ perms4 mFA mFC mFD mFE) :
    (∀ k, k ≤ 3 → (gen4HwRun Gen4HwInfo.empty (l.take k)).2 = [])
    ∧ (gen4HwRun Gen4HwInfo.empty l).2 =
        [{ hardwareName := some (gen4HardwareName mFC),
           hardwareVersion := some (gen4VersionString mFE),
           softwareVersion := some (gen4VersionString mFD),
           productDate := some (gen4ProductDate mFA),
           gyroSupported := decide (some (gen4HardwareName mFC) = some gan12uimName) }] := by
  fin_cases hl <;>
    exact ⟨by
      intro k hk
      interval_cases k <;>
        simp [gen4HwRun, gen4HandleHardware, hFA, hFC, hFD, hFE,
          Gen4HwInfo.keyCount, Gen4HwInfo.empty],
      by
      simp [gen4HwRun, gen4HandleHardware, hFA, hFC, hFD, hFE,
        Gen4HwInfo.keyCount, Gen4HwInfo.empty]⟩

/-- Witness for C7: sub-frames fed in order 0xFC, 0xFA, 0xFE, 0xFD with name
`GAN12uiM`; no event after three, one event with `gyroSupported = true` after
four. -/
theorem c7_gen4_hardware_witness :
    (gen4HwRun Gen4HwInfo.empty
      ([[0xFC, 9, 0, 71, 65, 78, 49, 50, 117, 105, 77],
        [0xFA, 5, 0, 0xE8, 0x07, 3, 9],
        [0xFE, 2, 0, 0x23],
        [0xFD, 2, 0, 0x15]].take 3)).2 = []
    ∧ (gen4HwRun Gen4HwInfo.empty
        [[0xFC, 9, 0, 71, 65, 78, 49, 50, 117, 105, 77],
         [0xFA, 5, 0, 0xE8, 0x07, 3, 9],
         [0xFE, 2, 0, 0x23],
         [0xFD, 2, 0, 0x15]]).2.length = 1
    ∧ (gen4HwRun Gen4HwInfo.empty
        [[0xFC, 9, 0, 71, 65, 78, 49, 50, 117, 105, 77],
         [0xFA, 5, 0, 0xE8, 0x07, 3, 9],
         [0xFE, 2, 0, 0x23],
         [0xFD, 2, 0, 0x15]]).2.map (fun e => e.gyroSupported) = [true] := by
  have h := c7_gen4_hardware
    [0xFA, 5, 0, 0xE8, 0x07, 3, 9]
    [0xFC, 9, 0, 71, 65, 78, 49, 50, 117, 105, 77]
    [0xFD, 2, 0, 0x15]
    [0xFE, 2, 0, 0x23]
    (by decide) (by decide) (by decide) (by decide)
    [[0xFC, 9, 0, 71, 65, 78, 49, 50, 117, 105, 77],
     [0xFA, 5, 0, 0xE8, 0x07, 3, 9],
     [0xFE, 2, 0, 0x23],
     [0xFD, 2, 0, 0x15]] (by decide)
  refine ⟨h.1 3 (by decide), ?_, ?_⟩
  · rw [h.2]
    rfl
  · rw [h.2]
    decide

/- ===================== C1: reconciler ordering ===================== -/

theorem consecSerials_cons (ls : Int) (n : Nat) :
    consecSerials ls (n + 1)
      = ((ls + 1) % 256).toNat :: consecSerials ((ls + 1) % 256) n := by
  apply List.ext_getElem
  · simp [consecSerials]
  · intro i h1 h2
    cases i with
    | zero => simp [consecSerials]
    | succ j =>
      simp only [consecSerials, List.getElem_map, List.getElem_range, List.getElem_cons_succ]
      congr 1
      omega

theorem consecSerials_append (ls : Int) (a b : Nat) :
    consecSerials ls a ++ consecSerials ((ls + a) % 256) b = consecSerials ls (a + b) := by
  apply List.ext_getElem
  · simp [consecSerials]
  · intro i h1 h2
    by_cases hia : i < a
    · rw [List.getElem_append_left (by simp [consecSerials]; omega)]
      simp only [consecSerials, List.getElem_map, List.getElem_range]
    · rw [List.getElem_append_right (by simp [consecSerials]; omega)]
      simp only [consecSerials, List.getElem_map, List.getElem_range, List.length_map,
        List.length_range]
      congr 1
      have hi : i - a < b := by simp [consecSerials] at h2; omega
      omega

theorem evictLoop_consec (buf : List GanCubeMoveEvent) (ls : Int)
    (h0 : 0 ≤ ls) (h256 : ls < 256)
    (hbnd : ∀ m ∈ buf, m.serial < 256)
    (hnd : (buf.map (fun m => m.serial)).Nodup)
    (hne : ∀ m ∈ buf, (m.serial : Int) ≠ ls) :
    ((evictLoop ls buf).1.map (fun m => m.serial))
        = consecSerials ls (evictLoop ls buf).1.length
    ∧ (evictLoop ls buf).2.1 = (ls + ((evictLoop ls buf).1.length : Int)) % 256 := by
  induction buf generalizing ls with
  | nil =>
    rw [evictLoop]
    simp only [List.map_nil, List.length_nil]
    exact ⟨rfl, by omega⟩
  | cons m rest ih =>
    have hls : ¬ (ls = -1) := by omega
    have hm256 : m.serial < 256 := hbnd m (by simp)
    have hmls : (m.serial : Int) ≠ ls := hne m (by simp)
    rw [evictLoop]
    simp only [if_neg hls]
    by_cases hd : ((m.serial : Int) - ls) % 256 > 1
    · simp only [if_pos hd]
      simp only [List.map_nil, List.length_nil]
      exact ⟨rfl, by omega⟩
    · simp only [if_neg hd]
      have hser : (m.serial : Int) = (ls + 1) % 256 := by omega
      obtain ⟨ih1, ih2⟩ := ih (m.serial : Int) (by omega) (by omega)
        (fun x hx => hbnd x (by simp [hx]))
        (by simp at hnd; exact hnd.2)
        (by
          intro x hx
          have : x.serial ≠ m.serial := by
            simp at hnd
            intro hcon
            exact hnd.1 x hx hcon
          omega)
      simp only [List.map_cons, List.length_cons]
      constructor
      · rw [ih1, consecSerials_cons]
        rw [← hser]
        simp
      · rw [ih2]
        omega

theorem evictAll_spec (buf : List GanCubeMoveEvent) (ls : Int)
    (h0 : 0 ≤ ls) (h256 : ls < 256)
    (hbnd : ∀ m ∈ buf, m.serial < 256)
    (hnd : (buf.map (fun m => m.serial)).Nodup)
    (hne : ∀ m ∈ buf, (m.serial : Int) ≠ ls) :
    ((evictLoop ls buf).1.map (fun m => m.serial))
        = consecSerials ls (evictLoop ls buf).1.length
    ∧ (evictLoop ls buf).2.1 = (ls + ((evictLoop ls buf).1.length : Int)) % 256
    ∧ 0 ≤ (evictLoop ls buf).2.1 ∧ (evictLoop ls buf).2.1 < 256
    ∧ (∀ m ∈ (evictLoop ls buf).2.2.2, m ∈ buf)
    ∧ (((evictLoop ls buf).2.2.2.map (fun m => m.serial)).Nodup)
    ∧ (∀ m ∈ (evictLoop ls buf).2.2.2, (m.serial : Int) ≠ (evictLoop ls buf).2.1)
    ∧ ((evictLoop ls buf).2.1 = ls ∨ ∃ m ∈ buf, (evictLoop ls buf).2.1 = (m.serial : Int)) := by
  obtain ⟨c1, c2⟩ := evictLoop_consec buf ls h0 h256 hbnd hnd hne
  obtain ⟨l1, l2, l3, _, _⟩ := evictLoop_spec buf ls
  have hmem : ∀ m ∈ (evictLoop ls buf).2.2.2, m ∈ buf := by
    intro m hm
    rw [l1]
    exact List.mem_append_right _ hm
  have hmap : buf.map (fun m => m.serial)
      = (evictLoop ls buf).1.map (fun m => m.serial)
        ++ (evictLoop ls buf).2.2.2.map (fun m => m.serial) := by
    rw [← List.map_append]
    rw [← l1]
  refine ⟨c1, c2, by omega, by omega, hmem, ?_, ?_, ?_⟩
  · have := hnd
    rw [hmap] at this
    exact this.of_append_right
  · intro m hm
    by_cases hev : (evictLoop ls buf).1 = []
    · have : (evictLoop ls buf).2.1 = ls := l2 hev
      rw [this]
      exact hne m (hmem m hm)
    · have hlast := l3 hev
      have hdisj : List.Disjoint ((evictLoop ls buf).1.map (fun m => m.serial))
          ((evictLoop ls buf).2.2.2.map (fun m => m.serial)) := by
        have := hnd
        rw [hmap] at this
        exact List.disjoint_of_nodup_append this
      have hin1 : ((evictLoop ls buf).1.getLast hev).serial
          ∈ (evictLoop ls buf).1.map (fun m => m.serial) :=
        List.mem_map_of_mem _ (List.getLast_mem hev)
      have hin2 : m.serial ∈ (evictLoop ls buf).2.2.2.map (fun m => m.serial) :=
        List.mem_map_of_mem _ hm
      intro hcon
      rw [hlast] at hcon
      have heq : m.serial = ((evictLoop ls buf).1.getLast hev).serial := by
        exact_mod_cast hcon
      exact hdisj hin1 (heq ▸ hin2)
  · by_cases hev : (evictLoop ls buf).1 = []
    · exact Or.inl (l2 hev)
    · refine Or.inr ⟨(evictLoop ls buf).1.getLast hev, ?_, l3 hev⟩
      have hx : (evictLoop ls buf).1.getLast hev
          ∈ (evictLoop ls buf).1 ++ (evictLoop ls buf).2.2.2 :=
        List.mem_append_left _ (List.getLast_mem hev)
      rw [← l1] at hx
      exact hx

theorem inject_cases (st : Gen3State) (m : GanCubeMoveEvent) :
    ((injectMissedMoveToBuffer st m).moveBuffer = st.moveBuffer
      ∨ (injectMissedMoveToBuffer st m).moveBuffer = m :: st.moveBuffer)
    ∧ (injectMissedMoveToBuffer st m).lastSerial = st.lastSerial
    ∧ (injectMissedMoveToBuffer st m).serial = st.serial := by
  rcases st with ⟨cur, ls, buf⟩
  cases buf with
  | nil =>
    simp only [injectMissedMoveToBuffer]
    split_ifs <;> simp
  | cons head tail =>
    simp only [injectMissedMoveToBuffer]
    split_ifs <;> simp

theorem gen3Step_spec (st : Gen3State) (a : Gen3Arrival)
    (h0 : 0 ≤ st.lastSerial) (h256 : st.lastSerial < 256)
    (hbnd : ∀ m ∈ st.moveBuffer, m.serial < 256)
    (hnd : (st.moveBuffer.map (fun m => m.serial)).Nodup)
    (hne : ∀ m ∈ st.moveBuffer, (m.serial : Int) ≠ st.lastSerial)
    (has : a.serial < 256)
    (hafresh : ∀ m ∈ st.moveBuffer, m.serial ≠ a.serial)
    (hals : ((a.serial : Nat) : Int) ≠ st.lastSerial) :
    ((gen3Step st a).2.map (fun m => m.serial))
        = consecSerials st.lastSerial (gen3Step st a).2.length
    ∧ (gen3Step st a).1.lastSerial = (st.lastSerial + ((gen3Step st a).2.length : Int)) % 256
    ∧ 0 ≤ (gen3Step st a).1.lastSerial ∧ (gen3Step st a).1.lastSerial < 256
    ∧ (∀ m ∈ (gen3Step st a).1.moveBuffer, m.serial < 256)
    ∧ (((gen3Step st a).1.moveBuffer.map (fun m => m.serial)).Nodup)
    ∧ (∀ m ∈ (gen3Step st a).1.moveBuffer, (m.serial : Int) ≠ (gen3Step st a).1.lastSerial)
    ∧ (∀ m ∈ (gen3Step st a).1.moveBuffer, m ∈ st.moveBuffer ∨ m.serial = a.serial)
    ∧ ((gen3Step st a).1.lastSerial = st.lastSerial
        ∨ (∃ m ∈ st.moveBuffer, (gen3Step st a).1.lastSerial = (m.serial : Int))
        ∨ (gen3Step st a).1.lastSerial = ((a.serial : Nat) : Int)) := by
  have hnot : ¬ (st.lastSerial = -1) := by omega
  cases a with
  | realtime m =>
    have e0 : gen3Step st (Gen3Arrival.realtime m)
        = ((evictMoveBuffer { st with serial := (m.serial : Int), moveBuffer := st.moveBuffer ++ [m] } true).2.1,
           (evictMoveBuffer { st with serial := (m.serial : Int), moveBuffer := st.moveBuffer ++ [m] } true).1) := by
      simp only [gen3Step, if_neg hnot]
    have hbnd' : ∀ x ∈ st.moveBuffer ++ [m], x.serial < 256 := by
      intro x hx
      rcases List.mem_append.mp hx with hx | hx
      · exact hbnd x hx
      · simp at hx
        rw [hx]
        exact has
    have hnd' : ((st.moveBuffer ++ [m]).map (fun m => m.serial)).Nodup := by
      rw [List.map_append]
      refine List.Nodup.append hnd (by simp) ?_
      intro x hx1 hx2
      simp at hx1 hx2
      obtain ⟨y, hy, hys⟩ := hx1
      exact hafresh y hy (by rw [hys, hx2]; rfl)
    have hne' : ∀ x ∈ st.moveBuffer ++ [m], (x.serial : Int) ≠ st.lastSerial := by
      intro x hx
      rcases List.mem_append.mp hx with hx | hx
      · exact hne x hx
      · simp at hx
        rw [hx]
        exact hals
    obtain ⟨e1, e2, e3, e4, e5, e6, e7, e8⟩ :=
      evictAll_spec (st.moveBuffer ++ [m]) st.lastSerial h0 h256 hbnd' hnd' hne'
    rw [e0]
    refine ⟨e1, e2, e3, e4, ?_, e6, e7, ?_, ?_⟩
    · intro x hx
      exact hbnd' x (e5 x hx)
    · intro x hx
      rcases List.mem_append.mp (e5 x hx) with hx2 | hx2
      · exact Or.inl hx2
      · simp at hx2
        rw [hx2]
        exact Or.inr rfl
    · rcases e8 with e8 | ⟨x, hx, hxe⟩
      · exact Or.inl e8
      · rcases List.mem_append.mp hx with hx2 | hx2
        · exact Or.inr (Or.inl ⟨x, hx2, hxe⟩)
        · simp at hx2
          rw [hx2] at hxe
          exact Or.inr (Or.inr hxe)
  | history m =>
    obtain ⟨hbuf, hls, hcur⟩ := inject_cases st m
    have e0 : gen3Step st (Gen3Arrival.history m)
        = ((evictMoveBuffer (injectMissedMoveToBuffer st m) false).2.1,
           (evictMoveBuffer (injectMissedMoveToBuffer st m) false).1) := by
      simp only [gen3Step]
    have hb' : ∀ x ∈ (injectMissedMoveToBuffer st m).moveBuffer,
        x ∈ st.moveBuffer ∨ x.serial = m.serial := by
      intro x hx
      rcases hbuf with hbuf | hbuf
      · rw [hbuf] at hx
        exact Or.inl hx
      · rw [hbuf] at hx
        rcases List.mem_cons.mp hx with hx | hx
        · rw [hx]
          exact Or.inr rfl
        · exact Or.inl hx
    have hbnd' : ∀ x ∈ (injectMissedMoveToBuffer st m).moveBuffer, x.serial < 256 := by
      intro x hx
      rcases hb' x hx with hx2 | hx2
      · exact hbnd x hx2
      · rw [hx2]
        exact has
    have hnd' : (((injectMissedMoveToBuffer st m).moveBuffer).map (fun m => m.serial)).Nodup := by
      rcases hbuf with hbuf | hbuf <;> rw [hbuf]
      · exact hnd
      · simp only [List.map_cons, List.nodup_cons]
        refine ⟨?_, hnd⟩
        intro hcon
        simp at hcon
        obtain ⟨y, hy, hys⟩ := hcon
        exact hafresh y hy hys
    have hne' : ∀ x ∈ (injectMissedMoveToBuffer st m).moveBuffer,
        (x.serial : Int) ≠ st.lastSerial := by
      intro x hx
      rcases hb' x hx with hx2 | hx2
      · exact hne x hx2
      · rw [hx2]
        exact hals
    obtain ⟨e1, e2, e3, e4, e5, e6, e7, e8⟩ :=
      evictAll_spec ((injectMissedMoveToBuffer st m).moveBuffer) st.lastSerial
        h0 h256 hbnd' hnd' hne'
    have els : (injectMissedMoveToBuffer st m).lastSerial = st.lastSerial := hls
    rw [e0]
    simp only [evictMoveBuffer, els]
    refine ⟨e1, e2, e3, e4, ?_, e6, e7, ?_, ?_⟩
    · intro x hx
      exact hbnd' x (e5 x hx)
    · intro x hx
      exact hb' x (e5 x hx)
    · rcases e8 with e8 | ⟨x, hx, hxe⟩
      · exact Or.inl e8
      · rcases hb' x hx with hx2 | hx2
        · exact Or.inr (Or.inl ⟨x, hx2, hxe⟩)
        · rw [hx2] at hxe
          exact Or.inr (Or.inr hxe)

theorem gen3Run_spec (arr : List Gen3Arrival) (st : Gen3State)
    (h0 : 0 ≤ st.lastSerial) (h256 : st.lastSerial < 256)
    (hbnd : ∀ m ∈ st.moveBuffer, m.serial < 256)
    (hnd : (st.moveBuffer.map (fun m => m.serial)).Nodup)
    (hne : ∀ m ∈ st.moveBuffer, (m.serial : Int) ≠ st.lastSerial)
    (hand : (arr.map Gen3Arrival.serial).Nodup)
    (habnd : ∀ a ∈ arr, a.serial < 256)
    (hafr1 : ∀ a ∈ arr, ∀ m ∈ st.moveBuffer, m.serial ≠ a.serial)
    (hafr2 : ∀ a ∈ arr, ((a.serial : Nat) : Int) ≠ st.lastSerial) :
    ((gen3Run st arr).2.map (fun m => m.serial))
        = consecSerials st.lastSerial (gen3Run st arr).2.length
    ∧ (gen3Run st arr).1.lastSerial
        = (st.lastSerial + ((gen3Run st arr).2.length : Int)) % 256 := by
  induction arr generalizing st with
  | nil =>
    rw [gen3Run]
    simp only [List.map_nil, List.length_nil]
    exact ⟨rfl, by omega⟩
  | cons a rest ih =>
    obtain ⟨s1, s2, s3, s4, s5, s6, s7, s8, s9⟩ :=
      gen3Step_spec st a h0 h256 hbnd hnd hne (habnd a (by simp))
        (fun m hm => hafr1 a (by simp) m hm) (hafr2 a (by simp))
    have handr : (rest.map Gen3Arrival.serial).Nodup := by
      simp only [List.map_cons, List.nodup_cons] at hand
      exact hand.2
    have hanotin : a.serial ∉ rest.map Gen3Arrival.serial := by
      simp only [List.map_cons, List.nodup_cons] at hand
      exact hand.1
    have hafr1' : ∀ b ∈ rest, ∀ m ∈ (gen3Step st a).1.moveBuffer, m.serial ≠ b.serial := by
      intro b hb m hm
      rcases s8 m hm with hm2 | hm2
      · exact hafr1 b (by simp [hb]) m hm2
      · rw [hm2]
        intro hcon
        exact hanotin (by rw [hcon]; exact List.mem_map_of_mem _ hb)
    have hafr2' : ∀ b ∈ rest, ((b.serial : Nat) : Int) ≠ (gen3Step st a).1.lastSerial := by
      intro b hb
      rcases s9 with s9 | ⟨x, hx, hxe⟩ | s9
      · rw [s9]
        exact hafr2 b (by simp [hb])
      · rw [hxe]
        have : b.serial ≠ x.serial := fun hcon => hafr1 b (by simp [hb]) x hx hcon.symm
        intro hcon
        exact this (by exact_mod_cast hcon)
      · rw [s9]
        have : b.serial ≠ a.serial := by
          intro hcon
          exact hanotin (by rw [← hcon]; exact List.mem_map_of_mem _ hb)
        intro hcon
        exact this (by exact_mod_cast hcon)
    obtain ⟨r1, r2⟩ := ih (gen3Step st a).1 s3 s4 s5 s6 s7 handr
      (fun b hb => habnd b (by simp [hb])) hafr1' hafr2'
    have e0 : gen3Run st (a :: rest)
        = ((gen3Run (gen3Step st a).1 rest).1,
           (gen3Step st a).2 ++ (gen3Run (gen3Step st a).1 rest).2) := by
      rw [gen3Run]
    rw [e0]
    constructor
    · simp only [List.map_append, List.length_append]
      rw [s1, r1, s2]
      rw [consecSerials_append]
    · simp only [List.length_append]
      rw [r2, s2]
      push_cast
      omega

/-- C1 (amended): starting from `lastSerial = l0` and an empty buffer, for ANY
sequence of real-time / history arrivals with pairwise distinct serials, all
below 256 and none equal to `l0`, the MOVE events returned across all calls
form the strictly ascending consecutive run `l0+1, l0+2, …` (mod 256) — in
particular a move with serial `s` is never emitted before `s-1` has been
emitted.  (The full claim — that a permutation covering `s..s+k` is always
emitted completely — fails; see the counterexample.) -/
theorem c1_reconciler_prefix (l0 : Nat) (cur0 : Int) (arr : List Gen3Arrival)
    (hl0 : l0 < 256)
    (hnd : (arr.map Gen3Arrival.serial).Nodup)
    (hbnd : ∀ a ∈ arr, a.serial < 256)
    (hnl : ∀ a ∈ arr, a.serial ≠ l0) :
    (gen3Run ⟨cur0, (l0 : Int), []⟩ arr).2.map (fun m => m.serial)
      = consecSerials (l0 : Int) (gen3Run ⟨cur0, (l0 : Int), []⟩ arr).2.length := by
  have h := gen3Run_spec arr ⟨cur0, (l0 : Int), []⟩ (by simp)
    (by simp; exact_mod_cast hl0) (by simp) (by simp) (by simp) hnd hbnd (by simp)
    (by
      intro a ha
      have := hnl a ha
      simp only []
      intro hcon
      exact this (by exact_mod_cast hcon))
  exact h.1

/-- Counterexample to C1 as stated: with `lastSerial = 4` (`s = 5`, `k = 1`,
`current_serial = 4`), the arrival order "history-injection of serial 6, then
real-time move 5" — a permutation of arrivals covering serials 5 and 6 — emits
only the move with serial 5: the injection into the empty buffer is dropped
because serial 6 is outside the window `(lastSerial, current_serial]`, so the
emitted events are not `5, 6`. -/
theorem c1_reconciler_cex :
    (gen3Run ⟨4, 4, []⟩
        [Gen3Arrival.history (mkMove 6), Gen3Arrival.realtime (mkMove 5)]).2.map
        (fun m => m.serial) = [5]
    ∧ [5] ≠ ([5, 6] : List Nat) :=
  ⟨by decide, by decide⟩

/-- Witness for C1: real-time 5, real-time 7, history 6 from `lastSerial = 4`
emit exactly 5, 6, 7 in order. -/
theorem c1_reconciler_prefix_witness :
    (gen3Run ⟨4, 4, []⟩
        [Gen3Arrival.realtime (mkMove 5), Gen3Arrival.realtime (mkMove 7),
         Gen3Arrival.history (mkMove 6)]).2.map (fun m => m.serial) = [5, 6, 7] := by
  have h := c1_reconciler_prefix 4 4
    [Gen3Arrival.realtime (mkMove 5), Gen3Arrival.realtime (mkMove 7),
     Gen3Arrival.history (mkMove 6)]
    (by decide) (by decide) (by decide) (by decide)
  exact h.trans (by decide)

theorem count_set (l : List Char) (t : Nat) (v c : Char) (h : t < l.length) :
    (l.set t v).count c + (if l.getD t 'U' = c then 1 else 0)
      = l.count c + (if v = c then 1 else 0) := by
  induction l generalizing t with
  | nil => simp at h
  | cons x xs ih =>
    cases t with
    | zero =>
      simp only [List.set_cons_zero, List.getD_cons_zero, List.count_cons]
      by_cases h1 : x = c <;> by_cases h2 : v = c <;> simp [h1, h2] <;> omega
    | succ u =>
      have hih := ih u (by simpa using h)
      simp only [List.set_cons_succ, List.getD_cons_succ, List.count_cons]
      by_cases h1 : x = c <;> by_cases h2 : xs.getD u 'U' = c <;> by_cases h3 : v = c <;>
        simp [h1, h2, h3] at hih ⊢ <;> omega

theorem applyWrites_length (l : List Char) (ws : List (Nat × Char)) :
    (applyWrites l ws).length = l.length := by
  induction ws generalizing l with
  | nil => rfl
  | cons w ws ih =>
    simp only [applyWrites, List.foldl_cons] at ih ⊢
    rw [ih]
    simp

theorem getD_applyWrites_not_mem (l : List Char) (ws : List (Nat × Char)) (t : Nat)
    (ht : t ∉ ws.map Prod.fst) :
    (applyWrites l ws).getD t 'U' = l.getD t 'U' := by
  induction ws generalizing l with
  | nil => rfl
  | cons w ws ih =>
    simp only [List.map_cons, List.mem_cons] at ht
    push_neg at ht
    simp only [applyWrites, List.foldl_cons] at ih ⊢
    rw [ih _ ht.2]
    rw [List.getD_eq_getElem?_getD, List.getD_eq_getElem?_getD]
    rw [List.getElem?_set_ne (fun hc => ht.1 hc.symm)]

theorem applyWrites_count (l : List Char) (ws : List (Nat × Char)) (c : Char)
    (hnd : (ws.map Prod.fst).Nodup) (hlt : ∀ w ∈ ws, w.1 < l.length) :
    (applyWrites l ws).count c + ws.countP (fun w => l.getD w.1 'U' = c)
      = l.count c + ws.countP (fun w => w.2 = c) := by
  induction ws generalizing l with
  | nil => simp [applyWrites]
  | cons w ws ih =>
    simp only [List.map_cons, List.nodup_cons] at hnd
    have hw1 : w.1 < l.length := hlt w (by simp)
    have hih := ih (l.set w.1 w.2) hnd.2 (by
      intro u hu
      rw [List.length_set]
      exact hlt u (by simp [hu]))
    have hcountP : ws.countP (fun u => (l.set w.1 w.2).getD u.1 'U' = c)
        = ws.countP (fun u => l.getD u.1 'U' = c) := by
      apply List.countP_congr
      intro u hu
      have hne : u.1 ≠ w.1 := by
        intro hc
        exact hnd.1 (hc ▸ List.mem_map_of_mem Prod.fst hu)
      rw [List.getD_eq_getElem?_getD, List.getD_eq_getElem?_getD,
        List.getElem?_set_ne (fun hc => hne hc.symm)]
    have hcs := count_set l w.1 w.2 c hw1
    have hstep : applyWrites l (w :: ws) = applyWrites (l.set w.1 w.2) ws := rfl
    rw [hstep, List.countP_cons, List.countP_cons]
    rw [hcountP] at hih
    by_cases h1 : l.getD w.1 'U' = c <;> by_cases h2 : w.2 = c <;>
      simp [h1, h2] at hcs hih ⊢ <;>
      omega

theorem rot3 {α : Type} (x y z d : α) (r : Nat) :
    ((List.range 3).map (fun p => [x, y, z].getD ((p + r) % 3) d)).Perm [x, y, z] := by
  have h3 : r % 3 = 0 ∨ r % 3 = 1 ∨ r % 3 = 2 := by omega
  rcases h3 with h | h | h
  · have e0 : (0 + r) % 3 = 0 := by omega
    have e1 : (1 + r) % 3 = 1 := by omega
    have e2 : (2 + r) % 3 = 2 := by omega
    simp [List.range_succ, e0, e1, e2, h]
  · have e0 : (0 + r) % 3 = 1 := by omega
    have e1 : (1 + r) % 3 = 2 := by omega
    have e2 : (2 + r) % 3 = 0 := by omega
    simp [List.range_succ, e0, e1, e2, h]
    exact List.perm_append_singleton x [y, z]
  · have e0 : (0 + r) % 3 = 2 := by omega
    have e1 : (1 + r) % 3 = 0 := by omega
    have e2 : (2 + r) % 3 = 1 := by omega
    simp [List.range_succ, e0, e1, e2, h]
    exact @List.perm_append_comm _ [z] [x, y]

theorem rot2 {α : Type} (x y d : α) (r : Nat) :
    ((List.range 2).map (fun p => [x, y].getD ((p + r) % 2) d)).Perm [x, y] := by
  have h2 : r % 2 = 0 ∨ r % 2 = 1 := by omega
  rcases h2 with h | h
  · have e0 : (0 + r) % 2 = 0 := by omega
    have e1 : (1 + r) % 2 = 1 := by omega
    simp [List.range_succ, e0, e1, h]
  · have e0 : (0 + r) % 2 = 1 := by omega
    have e1 : (1 + r) % 2 = 0 := by omega
    simp [List.range_succ, e0, e1, h]
    exact List.perm_append_singleton x [y]

theorem map_getD_range (l : List Nat) : (List.range l.length).map (fun i => l.getD i 0) = l := by
  apply List.ext_getElem
  · simp
  · intro i h1 h2
    simp [List.getD_eq_getElem?_getD, List.getElem?_eq_getElem h2]

theorem cornerWrites_fst_perm (cp co : List Nat) :
    ((cornerWrites cp co).map Prod.fst).Perm allCornerPositions := by
  rw [cornerWrites, List.map_flatMap]
  have hstep : ∀ i ∈ List.range 8,
      (((List.range 3).map (fun p =>
        ((cornerFaceletMap.getD i []).getD ((p + co.getD i 0) % 3) 0,
         faceLetters.getD ((cornerFaceletMap.getD (cp.getD i 0) []).getD p 0 / 9) 'U'))).map
          Prod.fst).Perm (cornerFaceletMap.getD i []) := by
    intro i hi
    rw [List.map_map]
    simp only [List.mem_range] at hi
    interval_cases i <;>
      exact rot3 _ _ _ _ (co.getD _ 0)
  exact (List.Perm.flatMap_left (List.range 8) hstep).trans (by decide)

theorem edgeWrites_fst_perm (ep eo : List Nat) :
    ((edgeWrites ep eo).map Prod.fst).Perm allEdgePositions := by
  rw [edgeWrites, List.map_flatMap]
  have hstep : ∀ i ∈ List.range 12,
      (((List.range 2).map (fun p =>
        ((edgeFaceletMap.getD i []).getD ((p + eo.getD i 0) % 2) 0,
         faceLetters.getD ((edgeFaceletMap.getD (ep.getD i 0) []).getD p 0 / 9) 'U'))).map
          Prod.fst).Perm (edgeFaceletMap.getD i []) := by
    intro i hi
    rw [List.map_map]
    simp only [List.mem_range] at hi
    interval_cases i <;>
      exact rot2 _ _ _ (eo.getD _ 0)
  exact (List.Perm.flatMap_left (List.range 12) hstep).trans (by decide)

theorem cornerWrites_snd_perm (cp co : List Nat) (hcp : cp.Perm (List.range 8)) :
    ((cornerWrites cp co).map Prod.snd).Perm cornerLetterPool := by
  have hlen : cp.length = 8 := by rw [hcp.length_eq, List.length_range]
  have hstep : (cornerWrites cp co).map Prod.snd
      = ((List.range 8).map (fun i => cp.getD i 0)).flatMap (fun j =>
          (List.range 3).map (fun p =>
            faceLetters.getD ((cornerFaceletMap.getD j []).getD p 0 / 9) 'U')) := by
    rw [cornerWrites, List.map_flatMap, List.flatMap_map]
    simp only [List.map_map]
    rfl
  rw [hstep, ← hlen, map_getD_range]
  exact hcp.flatMap_right _

theorem edgeWrites_snd_perm (ep eo : List Nat) (hep : ep.Perm (List.range 12)) :
    ((edgeWrites ep eo).map Prod.snd).Perm edgeLetterPool := by
  have hlen : ep.length = 12 := by rw [hep.length_eq, List.length_range]
  have hstep : (edgeWrites ep eo).map Prod.snd
      = ((List.range 12).map (fun i => ep.getD i 0)).flatMap (fun j =>
          (List.range 2).map (fun p =>
            faceLetters.getD ((edgeFaceletMap.getD j []).getD p 0 / 9) 'U')) := by
    rw [edgeWrites, List.map_flatMap, List.flatMap_map]
    simp only [List.map_map]
    rfl
  rw [hstep, ← hlen, map_getD_range]
  exact hep.flatMap_right _

/-- C5: toKociembaFacelets maps a CubeState with a valid
corner permutation (cp a permutation of 0..7, co twists < 3 summing to 0 mod 3)
and a valid edge permutation (ep a permutation of 0..11, eo flips < 2 summing to
0 mod 2) to a 54-character facelet string in which each of the six face letters
U, R, F, D, L, B occurs exactly 9 times. -/
theorem c5_facelets (cp co ep eo : List Nat)
    (hcp : cp.Perm (List.range 8)) (hep : ep.Perm (List.range 12))
    (hco : co.length = 8) (hco3 : ∀ x ∈ co, x < 3) (hcosum : co.sum % 3 = 0)
    (heo : eo.length = 12) (heo2 : ∀ x ∈ eo, x < 2) (heosum : eo.sum % 2 = 0) :
    (toKociembaFacelets cp co ep eo).length = 54
    ∧ (∀ c ∈ faceLetters, (toKociembaFacelets cp co ep eo).data.count c = 9) := by
  have hcwf := cornerWrites_fst_perm cp co
  have hewf := edgeWrites_fst_perm ep eo
  have hcws := cornerWrites_snd_perm cp co hcp
  have hews := edgeWrites_snd_perm ep eo hep
  have hinitlen : faceletInit.length = 54 := by decide
  have hmidlen : (applyWrites faceletInit (cornerWrites cp co)).length = 54 := by
    rw [applyWrites_length, hinitlen]
  have hdata : (toKociembaFacelets cp co ep eo).data
      = applyWrites (applyWrites faceletInit (cornerWrites cp co)) (edgeWrites ep eo) := by
    rw [toKociembaFacelets]
  have hcnodup : ((cornerWrites cp co).map Prod.fst).Nodup :=
    hcwf.nodup_iff.mpr (by decide)
  have henodup : ((edgeWrites ep eo).map Prod.fst).Nodup :=
    hewf.nodup_iff.mpr (by decide)
  have hcbound : ∀ w ∈ cornerWrites cp co, w.1 < 54 := by
    intro w hw
    have hmem : w.1 ∈ allCornerPositions := hcwf.mem_iff.mp (List.mem_map_of_mem _ hw)
    have hall : ∀ x ∈ allCornerPositions, x < 54 := by decide
    exact hall _ hmem
  have hebound : ∀ w ∈ edgeWrites ep eo, w.1 < 54 := by
    intro w hw
    have hmem : w.1 ∈ allEdgePositions := hewf.mem_iff.mp (List.mem_map_of_mem _ hw)
    have hall : ∀ x ∈ allEdgePositions, x < 54 := by decide
    exact hall _ hmem
  constructor
  · rw [toKociembaFacelets, String.length_mk, applyWrites_length, hmidlen]
  · intro c hc
    have hA := applyWrites_count faceletInit (cornerWrites cp co) c hcnodup
      (by rw [hinitlen]; exact hcbound)
    have hB := applyWrites_count (applyWrites faceletInit (cornerWrites cp co))
      (edgeWrites ep eo) c henodup (by rw [hmidlen]; exact hebound)
    have hc1 : (cornerWrites cp co).countP (fun w => faceletInit.getD w.1 'U' = c)
        = allCornerPositions.countP (fun t => faceletInit.getD t 'U' = c) :=
      ((List.countP_map (fun t => decide (faceletInit.getD t 'U' = c)) Prod.fst
        (cornerWrites cp co)).symm).trans (hcwf.countP_eq _)
    have hc2 : (cornerWrites cp co).countP (fun w => w.2 = c)
        = cornerLetterPool.countP (fun x => x = c) :=
      ((List.countP_map (fun x => decide (x = c)) Prod.snd
        (cornerWrites cp co)).symm).trans (hcws.countP_eq _)
    have he2 : (edgeWrites ep eo).countP (fun w => w.2 = c)
        = edgeLetterPool.countP (fun x => x = c) :=
      ((List.countP_map (fun x => decide (x = c)) Prod.snd
        (edgeWrites ep eo)).symm).trans (hews.countP_eq _)
    have hmidinit : (edgeWrites ep eo).countP
          (fun w => (applyWrites faceletInit (cornerWrites cp co)).getD w.1 'U' = c)
        = (edgeWrites ep eo).countP (fun w => faceletInit.getD w.1 'U' = c) := by
      apply List.countP_congr
      intro w hw
      have hwe : w.1 ∈ allEdgePositions := hewf.mem_iff.mp (List.mem_map_of_mem _ hw)
      have hnotc : w.1 ∉ (cornerWrites cp co).map Prod.fst := by
        intro hcon
        have hmc : w.1 ∈ allCornerPositions := hcwf.mem_iff.mp hcon
        have hdisj : ∀ x ∈ allEdgePositions, x ∉ allCornerPositions := by decide
        exact hdisj _ hwe hmc
      rw [getD_applyWrites_not_mem _ _ _ hnotc]
    have he1 : (edgeWrites ep eo).countP (fun w => faceletInit.getD w.1 'U' = c)
        = allEdgePositions.countP (fun t => faceletInit.getD t 'U' = c) :=
      ((List.countP_map (fun t => decide (faceletInit.getD t 'U' = c)) Prod.fst
        (edgeWrites ep eo)).symm).trans (hewf.countP_eq _)
    have n1 : faceletInit.count c = 9 := by fin_cases hc <;> decide
    have n2 : allCornerPositions.countP (fun t => faceletInit.getD t 'U' = c) = 4 := by
      fin_cases hc <;> decide
    have n3 : allEdgePositions.countP (fun t => faceletInit.getD t 'U' = c) = 4 := by
      fin_cases hc <;> decide
    have n4 : cornerLetterPool.countP (fun x => x = c) = 4 := by
      fin_cases hc <;> decide
    have n5 : edgeLetterPool.countP (fun x => x = c) = 4 := by
      fin_cases hc <;> decide
    rw [hc1, n2, hc2, n4] at hA
    rw [hmidinit, he1, n3, he2, n5] at hB
    rw [hdata]
    omega

theorem c5_facelets_witness :
    (toKociembaFacelets [0, 1, 2, 3, 4, 5, 6, 7] [0, 0, 0, 0, 0, 0, 0, 0]
      [0, 1, 2, 3, 4, 5, 6, 7, 8, 9, 10, 11] [0, 0, 0, 0, 0, 0, 0, 0, 0, 0, 0, 0]).length = 54
    ∧ (∀ c ∈ faceLetters,
        (toKociembaFacelets [0, 1, 2, 3, 4, 5, 6, 7] [0, 0, 0, 0, 0, 0, 0, 0]
          [0, 1, 2, 3, 4, 5, 6, 7, 8, 9, 10, 11]
          [0, 0, 0, 0, 0, 0, 0, 0, 0, 0, 0, 0]).data.count c = 9) :=
  c5_facelets [0, 1, 2, 3, 4, 5, 6, 7] [0, 0, 0, 0, 0, 0, 0, 0]
    [0, 1, 2, 3, 4, 5, 6, 7, 8, 9, 10, 11] [0, 0, 0, 0, 0, 0, 0, 0, 0, 0, 0, 0]
    (by decide) (by decide) (by decide) (by decide) (by decide)
    (by decide) (by decide) (by decide)

theorem fill1_ct_some (m : GanCubeMoveEvent) (rest : List GanCubeMoveEvent) (v : Int)
    (h : m.cubeTimestamp = some v) : fill1 m rest = m := by
  simp [fill1, h]

theorem fill1_none_nil (m : GanCubeMoveEvent) (h : m.cubeTimestamp = none) :
    fill1 m [] = m := by
  simp [fill1, h]

theorem fill1_none_cons (m nxt : GanCubeMoveEvent) (rest : List GanCubeMoveEvent) (v : Int)
    (hm : m.cubeTimestamp = none) (hn : nxt.cubeTimestamp = some v) :
    fill1 m (nxt :: rest) = { m with cubeTimestamp := some (v - 50) } := by
  simp [fill1, hm, hn]

theorem fill1_none_cons_none (m nxt : GanCubeMoveEvent) (rest : List GanCubeMoveEvent)
    (hm : m.cubeTimestamp = none) (hn : nxt.cubeTimestamp = none) :
    fill1 m (nxt :: rest) = m := by
  simp [fill1, hm, hn]

theorem fill1_fields (m : GanCubeMoveEvent) (rest : List GanCubeMoveEvent) :
    moveFields (fill1 m rest) = moveFields m := by
  rcases hm : m.cubeTimestamp with _ | v
  · rcases rest with _ | ⟨nxt, rest⟩
    · simp [fill1, hm]
    · rcases hn : nxt.cubeTimestamp with _ | w <;> simp [fill1, hm, hn, moveFields]
  · simp [fill1, hm]

theorem fill2_prev_none (prev m : GanCubeMoveEvent) (h : prev.cubeTimestamp = none) :
    fill2 prev m = m := by
  rcases hm : m.cubeTimestamp with _ | w <;> simp [fill2, h, hm]

theorem fill2_ct_some (prev m : GanCubeMoveEvent) (w : Int) (h : m.cubeTimestamp = some w) :
    fill2 prev m = m := by
  rcases hp : prev.cubeTimestamp with _ | v <;> simp [fill2, h, hp]

theorem fill2_some_none (prev m : GanCubeMoveEvent) (v : Int)
    (hp : prev.cubeTimestamp = some v) (hm : m.cubeTimestamp = none) :
    fill2 prev m = { m with cubeTimestamp := some (v + 50) } := by
  simp [fill2, hp, hm]

theorem fill2_fields (prev m : GanCubeMoveEvent) :
    moveFields (fill2 prev m) = moveFields m := by
  rcases hp : prev.cubeTimestamp with _ | v <;> rcases hm : m.cubeTimestamp with _ | w <;>
    simp [fill2, hp, hm, moveFields]

theorem fill2_ct_ne_none (prev m : GanCubeMoveEvent) (hp : prev.cubeTimestamp ≠ none) :
    (fill2 prev m).cubeTimestamp ≠ none := by
  rcases hpv : prev.cubeTimestamp with _ | v
  · exact absurd hpv hp
  · rcases hm : m.cubeTimestamp with _ | w <;> simp [fill2, hpv, hm]

theorem fitPass1_length (l : List GanCubeMoveEvent) : (fitPass1 l).length = l.length := by
  induction l with
  | nil => rfl
  | cons m ms ih => simp [fitPass1, ih]

theorem fitPass2Go_length (l : List GanCubeMoveEvent) :
    ∀ prev, (fitPass2Go prev l).length = l.length := by
  induction l with
  | nil => intro prev; rfl
  | cons m ms ih => intro prev; simp [fitPass2Go, ih]

theorem fitPass2_length (l : List GanCubeMoveEvent) : (fitPass2 l).length = l.length := by
  cases l with
  | nil => rfl
  | cons m ms => simp [fitPass2, fitPass2Go_length]

theorem fitPass1_fields (l : List GanCubeMoveEvent) :
    (fitPass1 l).map moveFields = l.map moveFields := by
  induction l with
  | nil => rfl
  | cons m ms ih => simp [fitPass1, fill1_fields, ih]

theorem fitPass2Go_fields (l : List GanCubeMoveEvent) :
    ∀ prev, (fitPass2Go prev l).map moveFields = l.map moveFields := by
  induction l with
  | nil => intro prev; rfl
  | cons m ms ih => intro prev; simp [fitPass2Go, fill2_fields, ih]

theorem fitPass2_fields (l : List GanCubeMoveEvent) :
    (fitPass2 l).map moveFields = l.map moveFields := by
  cases l with
  | nil => rfl
  | cons m ms => simp [fitPass2, fitPass2Go_fields]

theorem ctAt_nil (j : Nat) : ctAt [] j = none := by
  simp [ctAt]

theorem ctAt_cons_zero (m : GanCubeMoveEvent) (ms : List GanCubeMoveEvent) :
    ctAt (m :: ms) 0 = some m.cubeTimestamp := by
  simp [ctAt]

theorem ctAt_cons_succ (m : GanCubeMoveEvent) (ms : List GanCubeMoveEvent) (j : Nat) :
    ctAt (m :: ms) (j + 1) = ctAt ms j := by
  simp [ctAt]

theorem fitPass1_ct_some_pres (l : List GanCubeMoveEvent) :
    ∀ j v, ctAt l j = some (some v) → ctAt (fitPass1 l) j = some (some v) := by
  induction l with
  | nil => intro j v h; rw [ctAt_nil] at h; exact absurd h (by simp)
  | cons m ms ih =>
    intro j v h
    cases j with
    | zero =>
      rw [ctAt_cons_zero] at h
      have hm : m.cubeTimestamp = some v := Option.some.inj h
      show ctAt (fill1 m (fitPass1 ms) :: fitPass1 ms) 0 = some (some v)
      rw [ctAt_cons_zero, fill1_ct_some m (fitPass1 ms) v hm, hm]
    | succ j =>
      rw [ctAt_cons_succ] at h
      show ctAt (fill1 m (fitPass1 ms) :: fitPass1 ms) (j + 1) = some (some v)
      rw [ctAt_cons_succ]
      exact ih j v h

theorem fitPass1_fill (l : List GanCubeMoveEvent) :
    ∀ j v, ctAt l j = some none → ctAt l (j + 1) = some (some v) →
      ctAt (fitPass1 l) j = some (some (v - 50)) := by
  induction l with
  | nil => intro j v h _; rw [ctAt_nil] at h; exact absurd h (by simp)
  | cons m ms ih =>
    intro j v h h1
    cases j with
    | zero =>
      rw [ctAt_cons_zero] at h
      have hm : m.cubeTimestamp = none := Option.some.inj h
      rw [ctAt_cons_succ] at h1
      cases ms with
      | nil => rw [ctAt_nil] at h1; exact absurd h1 (by simp)
      | cons nxt ms2 =>
        rw [ctAt_cons_zero] at h1
        have hn : nxt.cubeTimestamp = some v := Option.some.inj h1
        show ctAt (fill1 m (fitPass1 (nxt :: ms2)) :: fitPass1 (nxt :: ms2)) 0
          = some (some (v - 50))
        rw [ctAt_cons_zero]
        show some (fill1 m (fill1 nxt (fitPass1 ms2) :: fitPass1 ms2)).cubeTimestamp
          = some (some (v - 50))
        rw [fill1_ct_some nxt (fitPass1 ms2) v hn]
        rw [fill1_none_cons m nxt (fitPass1 ms2) v hm hn]
    | succ j =>
      rw [ctAt_cons_succ] at h
      rw [ctAt_cons_succ] at h1
      show ctAt (fill1 m (fitPass1 ms) :: fitPass1 ms) (j + 1) = some (some (v - 50))
      rw [ctAt_cons_succ]
      exact ih j v h h1

theorem fitPass2Go_ct_some_pres (l : List GanCubeMoveEvent) :
    ∀ prev j v, ctAt l j = some (some v) → ctAt (fitPass2Go prev l) j = some (some v) := by
  induction l with
  | nil => intro prev j v h; rw [ctAt_nil] at h; exact absurd h (by simp)
  | cons m ms ih =>
    intro prev j v h
    cases j with
    | zero =>
      rw [ctAt_cons_zero] at h
      have hm : m.cubeTimestamp = some v := Option.some.inj h
      show ctAt (fill2 prev m :: fitPass2Go (fill2 prev m) ms) 0 = some (some v)
      rw [ctAt_cons_zero, fill2_ct_some prev m v hm, hm]
    | succ j =>
      rw [ctAt_cons_succ] at h
      show ctAt (fill2 prev m :: fitPass2Go (fill2 prev m) ms) (j + 1) = some (some v)
      rw [ctAt_cons_succ]
      exact ih (fill2 prev m) j v h

theorem fitPass2Go_chain (l : List GanCubeMoveEvent) :
    ∀ prev j, ctAt (fitPass2Go prev l) j ≠ some none →
      ctAt (fitPass2Go prev l) (j + 1) ≠ some none := by
  induction l with
  | nil => intro prev j _; rw [show fitPass2Go prev [] = [] from rfl, ctAt_nil]; simp
  | cons m ms ih =>
    intro prev j h
    cases j with
    | zero =>
      rw [show fitPass2Go prev (m :: ms) = fill2 prev m :: fitPass2Go (fill2 prev m) ms
        from rfl] at h ⊢
      rw [ctAt_cons_zero] at h
      rw [ctAt_cons_succ]
      cases ms with
      | nil => rw [show fitPass2Go (fill2 prev m) [] = [] from rfl, ctAt_nil]; simp
      | cons m2 ms2 =>
        rw [show fitPass2Go (fill2 prev m) (m2 :: ms2)
          = fill2 (fill2 prev m) m2 :: fitPass2Go (fill2 (fill2 prev m) m2) ms2 from rfl]
        rw [ctAt_cons_zero]
        have hne : (fill2 prev m).cubeTimestamp ≠ none := by
          intro hc; exact h (by rw [hc])
        have := fill2_ct_ne_none (fill2 prev m) m2 hne
        intro hc
        exact this (Option.some.inj hc)
    | succ j =>
      rw [show fitPass2Go prev (m :: ms) = fill2 prev m :: fitPass2Go (fill2 prev m) ms
        from rfl] at h ⊢
      rw [ctAt_cons_succ] at h
      rw [ctAt_cons_succ]
      exact ih (fill2 prev m) j h

theorem fitPass2Go_fill (l : List GanCubeMoveEvent) :
    ∀ prev j w, ctAt l j = some (some w) → ctAt l (j + 1) = some none →
      ctAt (fitPass2Go prev l) (j + 1) = some (some (w + 50)) := by
  induction l with
  | nil => intro prev j w h _; rw [ctAt_nil] at h; exact absurd h (by simp)
  | cons m ms ih =>
    intro prev j w h h1
    cases j with
    | zero =>
      rw [ctAt_cons_zero] at h
      have hm : m.cubeTimestamp = some w := Option.some.inj h
      rw [ctAt_cons_succ] at h1
      cases ms with
      | nil => rw [ctAt_nil] at h1; exact absurd h1 (by simp)
      | cons m2 ms2 =>
        rw [ctAt_cons_zero] at h1
        have hm2 : m2.cubeTimestamp = none := Option.some.inj h1
        show ctAt (fill2 prev m :: fitPass2Go (fill2 prev m) (m2 :: ms2)) 1
          = some (some (w + 50))
        rw [ctAt_cons_succ]
        rw [fill2_ct_some prev m w hm]
        show ctAt (fill2 m m2 :: fitPass2Go (fill2 m m2) ms2) 0 = some (some (w + 50))
        rw [ctAt_cons_zero, fill2_some_none m m2 w hm hm2]
    | succ j =>
      rw [ctAt_cons_succ] at h
      rw [ctAt_cons_succ] at h1
      show ctAt (fill2 prev m :: fitPass2Go (fill2 prev m) ms) (j + 1 + 1)
        = some (some (w + 50))
      rw [ctAt_cons_succ]
      exact ih (fill2 prev m) j w h h1

theorem fitPass2_eq_go (l : List GanCubeMoveEvent) : fitPass2 l = fitPass2Go dummyMove l := by
  cases l with
  | nil => rfl
  | cons m ms =>
    show m :: fitPass2Go m ms = fill2 dummyMove m :: fitPass2Go (fill2 dummyMove m) ms
    rw [fill2_prev_none dummyMove m (by rfl)]

theorem fitPass2_ct_some_pres (l : List GanCubeMoveEvent) (j : Nat) (v : Int)
    (h : ctAt l j = some (some v)) : ctAt (fitPass2 l) j = some (some v) := by
  rw [fitPass2_eq_go]
  exact fitPass2Go_ct_some_pres l dummyMove j v h

theorem fitPass2_chain (l : List GanCubeMoveEvent) (j : Nat)
    (h : ctAt (fitPass2 l) j ≠ some none) : ctAt (fitPass2 l) (j + 1) ≠ some none := by
  rw [fitPass2_eq_go] at h ⊢
  exact fitPass2Go_chain l dummyMove j h

theorem fitPass2_fill (l : List GanCubeMoveEvent) (j : Nat) (w : Int)
    (h : ctAt l j = some (some w)) (h1 : ctAt l (j + 1) = some none) :
    ctAt (fitPass2 l) (j + 1) = some (some (w + 50)) := by
  rw [fitPass2_eq_go]
  exact fitPass2Go_fill l dummyMove j w h h1

theorem fitPass1_all_none (l : List GanCubeMoveEvent)
    (h : ∀ x ∈ l, x.cubeTimestamp = none) : fitPass1 l = l := by
  induction l with
  | nil => rfl
  | cons m ms ih =>
    have hms : fitPass1 ms = ms := ih (fun x hx => h x (List.mem_cons_of_mem m hx))
    have hm : m.cubeTimestamp = none := h m (List.mem_cons_self m ms)
    show fill1 m (fitPass1 ms) :: fitPass1 ms = m :: ms
    rw [hms]
    cases ms with
    | nil => rw [fill1_none_nil m hm]
    | cons nxt ms2 =>
      rw [fill1_none_cons_none m nxt ms2 hm (h nxt (by simp))]

theorem fitPass1_drop (l : List GanCubeMoveEvent) :
    ∀ j, (fitPass1 l).drop j = fitPass1 (l.drop j) := by
  induction l with
  | nil => intro j; simp [fitPass1]
  | cons m ms ih =>
    intro j
    cases j with
    | zero => rfl
    | succ j =>
      show (fill1 m (fitPass1 ms) :: fitPass1 ms).drop (j + 1) = fitPass1 ((m :: ms).drop (j + 1))
      rw [List.drop_succ_cons, List.drop_succ_cons]
      exact ih j

theorem ctAt_ne_some_none (l : List GanCubeMoveEvent) (j : Nat) (hj : j < l.length)
    (h : ctAt l j ≠ some none) : ∃ v, ctAt l j = some (some v) := by
  have hsome : l[j]? = some l[j] := List.getElem?_eq_getElem hj
  rcases hv : l[j].cubeTimestamp with _ | v
  · exact absurd (by rw [ctAt, hsome, Option.map_some', hv]) h
  · exact ⟨v, by rw [ctAt, hsome, Option.map_some', hv]⟩

/-- C10: `cubeTimestampLinearFit` mutates its input.  For every move list of
length at least 2 with a null-`cubeTimestamp` move adjacent to a non-null one,
the caller-visible state of the argument after the call differs from the
original: both adjacent positions end with non-null `cubeTimestamp`, a null
move whose successor was non-null `v` is overwritten with `v - 50`, a null
successor of a non-null move `w` with nothing non-null after it is overwritten
with `w + 50`, while the length, every other field, and every non-null
`cubeTimestamp` are preserved — so only the returned list is fresh and the
input is not left unchanged. -/
theorem c10_linear_fit_mutates_input (ms : List GanCubeMoveEvent) (i : Nat)
    (h2 : 2 ≤ ms.length) (hi1 : i + 1 < ms.length)
    (hadj : (ctAt ms i = some none ∧ ctAt ms (i + 1) ≠ some none)
          ∨ (ctAt ms i ≠ some none ∧ ctAt ms (i + 1) = some none)) :
    cubeTimestampLinearFitInputAfter ms ≠ ms
    ∧ (cubeTimestampLinearFitInputAfter ms).length = ms.length
    ∧ (cubeTimestampLinearFitInputAfter ms).map moveFields = ms.map moveFields
    ∧ (∀ j v, ctAt ms j = some (some v) →
        ctAt (cubeTimestampLinearFitInputAfter ms) j = some (some v))
    ∧ ctAt (cubeTimestampLinearFitInputAfter ms) i ≠ some none
    ∧ ctAt (cubeTimestampLinearFitInputAfter ms) (i + 1) ≠ some none
    ∧ (∀ v, ctAt ms i = some none → ctAt ms (i + 1) = some (some v) →
        ctAt (cubeTimestampLinearFitInputAfter ms) i = some (some (v - 50)))
    ∧ (∀ w, ctAt ms i = some (some w) →
        (∀ k, i + 1 ≤ k → k < ms.length → ctAt ms k = some none) →
        ctAt (cubeTimestampLinearFitInputAfter ms) (i + 1) = some (some (w + 50))) := by
  have hif : cubeTimestampLinearFitInputAfter ms = fitPass2 (fitPass1 ms) := by
    rw [cubeTimestampLinearFitInputAfter, if_pos h2]
  have clen : (cubeTimestampLinearFitInputAfter ms).length = ms.length := by
    rw [hif, fitPass2_length, fitPass1_length]
  have cfields : (cubeTimestampLinearFitInputAfter ms).map moveFields = ms.map moveFields := by
    rw [hif, fitPass2_fields, fitPass1_fields]
  have cpres : ∀ j v, ctAt ms j = some (some v) →
      ctAt (cubeTimestampLinearFitInputAfter ms) j = some (some v) := by
    intro j v h
    rw [hif]
    exact fitPass2_ct_some_pres _ j v (fitPass1_ct_some_pres ms j v h)
  have cfill : ∀ v, ctAt ms i = some none → ctAt ms (i + 1) = some (some v) →
      ctAt (cubeTimestampLinearFitInputAfter ms) i = some (some (v - 50)) := by
    intro v h h1
    rw [hif]
    exact fitPass2_ct_some_pres _ i _ (fitPass1_fill ms i v h h1)
  have cfillB : ∀ w, ctAt ms i = some (some w) →
      (∀ k, i + 1 ≤ k → k < ms.length → ctAt ms k = some none) →
      ctAt (cubeTimestampLinearFitInputAfter ms) (i + 1) = some (some (w + 50)) := by
    intro w hw hall
    rw [hif]
    have h1i : ctAt (fitPass1 ms) i = some (some w) := fitPass1_ct_some_pres ms i w hw
    have hsuf : ∀ x ∈ ms.drop (i + 1), x.cubeTimestamp = none := by
      intro x hx
      obtain ⟨n, hn⟩ := List.mem_iff_getElem?.mp hx
      rw [List.getElem?_drop] at hn
      have hlt : i + 1 + n < ms.length := by
        by_contra hc
        rw [List.getElem?_eq_none (by omega)] at hn
        exact absurd hn (by simp)
      have hk := hall (i + 1 + n) (by omega) hlt
      rw [ctAt, hn, Option.map_some'] at hk
      exact Option.some.inj hk
    have h1i1 : ctAt (fitPass1 ms) (i + 1) = some none := by
      have hdrop : (fitPass1 ms).drop (i + 1) = ms.drop (i + 1) := by
        rw [fitPass1_drop, fitPass1_all_none _ hsuf]
      have e1 : (fitPass1 ms)[i + 1]? = ((fitPass1 ms).drop (i + 1))[0]? := by
        rw [List.getElem?_drop]
      have e2 : (ms.drop (i + 1))[0]? = ms[i + 1]? := by
        rw [List.getElem?_drop]
      rw [ctAt, e1, hdrop, e2]
      have hk := hall (i + 1) (by omega) hi1
      rw [ctAt] at hk
      exact hk
    exact fitPass2_fill _ i w h1i h1i1
  have c5A : ctAt (cubeTimestampLinearFitInputAfter ms) i ≠ some none := by
    rcases hadj with ⟨hA0, hA1⟩ | ⟨hB0, hB1⟩
    · obtain ⟨v, hv⟩ := ctAt_ne_some_none ms (i + 1) hi1 hA1
      rw [cfill v hA0 hv]; simp
    · obtain ⟨w, hw⟩ := ctAt_ne_some_none ms i (by omega) hB0
      rw [cpres i w hw]; simp
  have c6A : ctAt (cubeTimestampLinearFitInputAfter ms) (i + 1) ≠ some none := by
    rcases hadj with ⟨hA0, hA1⟩ | ⟨hB0, hB1⟩
    · obtain ⟨v, hv⟩ := ctAt_ne_some_none ms (i + 1) hi1 hA1
      rw [cpres (i + 1) v hv]; simp
    · rw [hif]
      apply fitPass2_chain
      rw [← hif]
      exact c5A
  have cne : cubeTimestampLinearFitInputAfter ms ≠ ms := by
    rcases hadj with ⟨hA0, hA1⟩ | ⟨hB0, hB1⟩
    · intro heq
      rw [heq] at c5A
      exact c5A hA0
    · intro heq
      rw [heq] at c6A
      exact c6A hB1
  exact ⟨cne, clen, cfields, cpres, c5A, c6A, cfill, cfillB⟩

theorem c10_linear_fit_mutates_input_witness :
    cubeTimestampLinearFitInputAfter [c10mA, c10mB] ≠ [c10mA, c10mB]
    ∧ (cubeTimestampLinearFitInputAfter [c10mA, c10mB]).length = ([c10mA, c10mB] : List GanCubeMoveEvent).length
    ∧ (cubeTimestampLinearFitInputAfter [c10mA, c10mB]).map moveFields = ([c10mA, c10mB] : List GanCubeMoveEvent).map moveFields
    ∧ (∀ j v, ctAt [c10mA, c10mB] j = some (some v) →
        ctAt (cubeTimestampLinearFitInputAfter [c10mA, c10mB]) j = some (some v))
    ∧ ctAt (cubeTimestampLinearFitInputAfter [c10mA, c10mB]) 0 ≠ some none
    ∧ ctAt (cubeTimestampLinearFitInputAfter [c10mA, c10mB]) (0 + 1) ≠ some none
    ∧ (∀ v, ctAt [c10mA, c10mB] 0 = some none → ctAt [c10mA, c10mB] (0 + 1) = some (some v) →
        ctAt (cubeTimestampLinearFitInputAfter [c10mA, c10mB]) 0 = some (some (v - 50)))
    ∧ (∀ w, ctAt [c10mA, c10mB] 0 = some (some w) →
        (∀ k, 0 + 1 ≤ k → k < ([c10mA, c10mB] : List GanCubeMoveEvent).length → ctAt [c10mA, c10mB] k = some none) →
        ctAt (cubeTimestampLinearFitInputAfter [c10mA, c10mB]) (0 + 1) = some (some (w + 50))) :=
  c10_linear_fit_mutates_input [c10mA, c10mB] 0 (by decide) (by decide)
    (Or.inl ⟨by decide, by decide⟩)
